import Mathlib

/-!
A shallow embedding of the decision-tree induction and mutation engine of the
repository (TypeScript sources under `src/`): the split evaluator and statistics
utilities (`lib/utils/TreeUtils.ts`), the three induction algorithms
(`lib/algorithms/C45.ts`, `TSP.ts`, `WTSP.ts`), the mutation engine
(`TreeEngine` in `lib/algorithms/HybridAlgorithm.ts`, plus `makeLeaf` and
`unfoldLeafOnce` from `lib/engine/TreeEngineContext.tsx`), and the evaluation
utilities (`createConfusionMatrix`, `generateROCCurve`, `calculateAUC`).

Modelling conventions:
* JavaScript numbers are modelled as rationals (`ℚ`); `NaN` is modelled by
  `Option ℚ` where `none` plays the role of `NaN` in comparisons.
* Shannon entropy (`Math.log2`-based `computeEntropy`) and the intrinsic value
  are irrational-valued, hence not directly computable over `ℚ`; they are
  carried as abstract parameters in an `Env` record, together with the random
  id stream.  Theorems that depend on properties of real entropy state them as
  explicit hypotheses (e.g. entropy of a one-class distribution is 0), which
  `-Σ p·log2 p` satisfies.
* JS in-place object mutation is modelled by pure tree rewriting at the first
  depth-first occurrence of the mutated element's id (the object aliased by
  `findNodeById`).
* A JS object's possibly-absent fields (`test`, `children`, leaf summaries) are
  modelled with `Option`; `Object.assign` copies exactly the source object's
  own keys, which the `assign*` functions below reproduce.
* `children` arrays of built nodes always have exactly two entries; they are
  modelled as an ordered pair.
-/

namespace DTree

/-- A JavaScript runtime value stored in an instance's `values` record:
a number, a string, or `undefined` (absent key). -/
inductive JSVal where
  | num (q : ℚ)
  | str (s : String)
  | undef
deriving DecidableEq, Repr

/-- `Number(s)` on a string, restricted to plain digit strings: a nonempty
all-digit string parses to its value, anything else is `NaN` (`none`).
(JS `Number` also accepts signs, decimals and exponents; the datasets and the
concrete inputs used below stay inside the digit-string fragment, on which this
model agrees with JS.) -/
def parseNum (s : String) : Option ℚ :=
  if s.length > 0 ∧ s.data.all Char.isDigit then
    some ((s.data.foldl (fun n c => n * 10 + (c.toNat - 48)) 0 : ℕ) : ℚ)
  else none

/-- `Number(v)`: numbers pass through, strings are parsed, `undefined` is `NaN`. -/
def toNum : JSVal → Option ℚ
  | .num q => some q
  | .str s => parseNum s
  | .undef => none

/-- `String(v)`. For numbers the source only ever reaches this coercion with
integral values (attribute names are strings), on which `toString` of the
numerator matches JS formatting. -/
def jsStringOf : JSVal → String
  | .num q => toString q.num
  | .str s => s
  | .undef => "undefined"

/-- The six comparison operators of `SplitTest.condition`. -/
inductive Cond where
  | lt | gt | eq | ne | le | ge
deriving DecidableEq, Repr

/-- A split test (`SplitTest` in `types/index.ts`). The source field
`attribute` is a Lean keyword and is rendered `attr`. -/
structure SplitTest where
  attr : String
  condition : Cond
  value : JSVal
  algorithm : String
  entropy : ℚ
  isValueAttribute : Bool
  weight : Option ℚ
deriving DecidableEq, Repr

/-- A data instance (`Instance`): `class` is a reserved word in Lean, the field
is named `cls`. JS objects have unique keys; `values` is an association list
with the object's key order. -/
structure Instance where
  id : String
  values : List (String × JSVal)
  cls : Option String
deriving DecidableEq, Repr

/-- `instance.values[a]`: `undefined` when the key is absent. -/
def lookupVal (i : Instance) (a : String) : JSVal :=
  ((i.values.find? (fun p => p.1 = a)).map Prod.snd).getD JSVal.undef

/-- Numeric comparison with JS `NaN` semantics: every comparison with `NaN`
is false, except `!==`, which is true. -/
def numCmp : Cond → Option ℚ → Option ℚ → Bool
  | .lt, some a, some b => a < b
  | .gt, some a, some b => a > b
  | .le, some a, some b => a ≤ b
  | .ge, some a, some b => a ≥ b
  | .eq, some a, some b => a = b
  | .ne, some a, some b => a ≠ b
  | .ne, _, _ => true
  | _, _, _ => false

/-- String comparison used in the non-numeric branch of `evaluate`. -/
def strCmp : Cond → String → String → Bool
  | .lt, a, b => a < b
  | .gt, a, b => b < a
  | .le, a, b => a ≤ b
  | .ge, a, b => b ≤ a
  | .eq, a, b => a = b
  | .ne, a, b => a ≠ b

/-- `TreeUtils.evaluate(instance, test)` (`lib/utils/TreeUtils.ts` lines 4-26).
Note that `test.weight` is not consulted anywhere. -/
def evaluate (i : Instance) (t : SplitTest) : Bool :=
  let rawAttrVal := lookupVal i t.attr
  let rawCompareVal := if t.isValueAttribute then lookupVal i (jsStringOf t.value) else t.value
  let isNumericComparison :=
    (t.condition = .lt ∨ t.condition = .gt ∨ t.condition = .le ∨ t.condition = .ge) ∨
      ((toNum rawAttrVal).isSome ∧ (toNum rawCompareVal).isSome)
  if isNumericComparison then
    numCmp t.condition (toNum rawAttrVal) (toNum rawCompareVal)
  else
    strCmp t.condition (jsStringOf rawAttrVal) (jsStringOf rawCompareVal)

/-- `TreeUtils.splitInstances`: `[matching, nonMatching]`. -/
def splitInstances (insts : List Instance) (t : SplitTest) :
    List Instance × List Instance :=
  (insts.filter (fun i => evaluate i t), insts.filter (fun i => !evaluate i t))

/-- A class distribution: a JS object mapping label to count, in key insertion
order. -/
abbrev ClassDist := List (String × ℕ)

/-- Increment the count of label `c`, appending a fresh key at the end when
absent (JS object key order). -/
def bump : ClassDist → String → ClassDist
  | [], c => [(c, 1)]
  | (a, n) :: rest, c => if a = c then (a, n + 1) :: rest else (a, n) :: bump rest c

/-- The class distribution built by `calculateStats`: instances lacking a class
count under `"Unknown"`. -/
def classDistOf (insts : List Instance) : ClassDist :=
  insts.foldl (fun d i => bump d (i.cls.getD "Unknown")) []

/-- `NodeStatistics`. -/
structure NodeStatistics where
  totalInstances : ℕ
  entropy : ℚ
  classDistribution : ClassDist
deriving DecidableEq, Repr

/-- The abstract parts of the runtime: `H` stands for
`TreeUtils.computeEntropy` (Shannon entropy, base 2, irrational-valued), `iv`
for `calculateIntrinsicValue` applied to a two-branch split (arguments: the two
branch sizes and the parent size), and `gen` for the `Math.random`-based id
stream (the `k`-th random suffix produced during a build). -/
structure Env where
  H : ClassDist → ℚ
  iv : ℕ → ℕ → ℕ → ℚ
  gen : ℕ → String

/-- `TreeUtils.calculateStats`. -/
def calculateStats (env : Env) (insts : List Instance) : NodeStatistics :=
  let d := classDistOf insts
  { totalInstances := insts.length
    entropy := if insts.length > 0 then env.H d else 0
    classDistribution := d }

/-- `TreeUtils.calculateInformationGain` restricted to a binary split (the only
arity the algorithms use). -/
def informationGain (env : Env) (parent : List Instance)
    (s : List Instance × List Instance) : ℚ :=
  let pE := (calculateStats env parent).entropy
  pE - (((s.1.length : ℚ) / parent.length) * (calculateStats env s.1).entropy
      + ((s.2.length : ℚ) / parent.length) * (calculateStats env s.2).entropy)

/-- The majority class: `Object.entries(dist).sort((a,b)=>b[1]-a[1])[0]?.[0] ??
'Unknown'`. JS `sort` is stable; `insertionSort` with the same "counts
descending" preorder is the stable sort of the same list. -/
def majorityClass (d : ClassDist) : String :=
  (((d.insertionSort (fun a b => b.2 ≤ a.2)).head?.map Prod.fst).getD "Unknown")

/-- Element type tag (`type: 'node' | 'leaf'`). -/
inductive ElTag where
  | node | leaf
deriving DecidableEq, Repr

/-- A tree element as a JS object: the fields beyond `id`, `type` and
`statistics` may be absent (a canonical node carries `test`, `children`,
`alternativeSplits`; a canonical leaf carries the three leaf summaries).
`Object.assign`-style partial updates can leave residual fields behind, which
this representation captures. -/
inductive Element where
  | mk (id : String) (typ : ElTag) (statistics : NodeStatistics)
      (test : Option SplitTest) (children : Option (Element × Element))
      (alternativeSplits : List SplitTest)
      (predictedClass : Option String) (classDistribution : Option ClassDist)
      (canExpand : Option Bool)

def Element.id : Element → String
  | .mk i _ _ _ _ _ _ _ _ => i

def Element.typ : Element → ElTag
  | .mk _ t _ _ _ _ _ _ _ => t

def Element.statistics : Element → NodeStatistics
  | .mk _ _ s _ _ _ _ _ _ => s

def Element.test : Element → Option SplitTest
  | .mk _ _ _ t _ _ _ _ _ => t

def Element.children : Element → Option (Element × Element)
  | .mk _ _ _ _ c _ _ _ _ => c

def Element.alternativeSplits : Element → List SplitTest
  | .mk _ _ _ _ _ a _ _ _ => a

def Element.predictedClass : Element → Option String
  | .mk _ _ _ _ _ _ p _ _ => p

def Element.classDistribution : Element → Option ClassDist
  | .mk _ _ _ _ _ _ _ d _ => d

def Element.canExpand : Element → Option Bool
  | .mk _ _ _ _ _ _ _ _ c => c

/-- `TreeUtils.createLeafFromGroup`, consuming one id from the random stream;
returns the element and the advanced stream position. -/
def createLeafFromGroup (env : Env) (k : ℕ) (insts : List Instance) :
    Element × ℕ :=
  let stats := calculateStats env insts
  (.mk ("leaf-" ++ env.gen k) .leaf stats none none []
      (some (majorityClass stats.classDistribution))
      (some stats.classDistribution)
      (some (decide (stats.entropy > 0))), k + 1)


/-- `ExperimentConfig` (the fields the modelled code consults). -/
structure ExperimentConfig where
  algorithms : List String
  maxDepth : ℕ
  minInstancesPerLeaf : ℕ
  entropyThreshold : ℚ
  decisionAttribute : String
  excludedAttributes : List String
deriving DecidableEq, Repr

/-- `DecisionTree`. -/
structure DecisionTree where
  id : String
  root : Element
  config : ExperimentConfig

/-- Stand-in for the crash the source would hit when reading `test` of a
malformed node (`evaluate(instance, undefined)`); never reached on canonical
trees, where every node carries a test. -/
def dummyTest : SplitTest :=
  { attr := "", condition := .eq, value := .undef, algorithm := "", entropy := 0
    isValueAttribute := false, weight := none }

/-- `TreeUtils.findNodeById`: first depth-first match. -/
def findNodeById : Element → String → Option Element
  | e@(.mk i ty _ _ ch _ _ _ _), nodeId =>
    if i = nodeId then some e
    else
      match ty, ch with
      | .node, some (l, r) =>
        match findNodeById l nodeId with
        | some x => some x
        | none => findNodeById r nodeId
      | _, _ => none

/-- `TreeEngine.reachesNode`: replay the instance from `current`, following the
matching child, until the target id or a leaf is reached. -/
def reachesNode : Element → Instance → String → Bool
  | .mk i ty _ te ch _ _ _ _, inst, targetId =>
    if i = targetId then true
    else
      match ty, ch with
      | .node, some (l, r) =>
        if evaluate inst (te.getD dummyTest) then reachesNode l inst targetId
        else reachesNode r inst targetId
      | _, _ => false

/-- The prediction loop of `TreeEngine.evaluateTree`: descend until a leaf;
a node missing a child yields no prediction (the instance is skipped). -/
def descend : Element → Instance → Option String
  | .mk _ .leaf _ _ _ _ pc _ _, _ => some (pc.getD "Unknown")
  | .mk _ .node _ te (some (l, r)) _ _ _ _, inst =>
    if evaluate inst (te.getD dummyTest) then descend l inst else descend r inst
  | .mk _ .node _ _ none _ _ _ _, _ => none

/-- Rewrite the first depth-first occurrence of `nodeId` by `f`: the pure
counterpart of mutating the object returned by `findNodeById` in place. -/
def mapAtNode : Element → String → (Element → Element) → Element
  | .mk i ty st te ch alts pc cd ce, nodeId, f =>
    if i = nodeId then f (.mk i ty st te ch alts pc cd ce)
    else
      match ty, ch with
      | .node, some (l, r) =>
        if (findNodeById l nodeId).isSome then
          .mk i ty st te (some (mapAtNode l nodeId f, r)) alts pc cd ce
        else
          .mk i ty st te (some (l, mapAtNode r nodeId f)) alts pc cd ce
      | _, _ => .mk i ty st te ch alts pc cd ce

/-- First-occurrence deduplication (`[...new Set(xs)]`). -/
def firstDedup {α : Type} [DecidableEq α] (l : List α) : List α :=
  l.foldl (fun acc x => if x ∈ acc then acc else acc ++ [x]) []

/-- Consecutive pairs of a list (`l[i], l[i+1]`). -/
def consecPairs {α : Type} (l : List α) : List (α × α) := l.zip l.tail

/-- Unordered index pairs in loop order (`i < j` as in the nested `for`s of
TSP/WTSP). -/
def pairsOf {α : Type} : List α → List (α × α)
  | [] => []
  | x :: xs => (xs.map (fun y => (x, y))) ++ pairsOf xs


/-- Accumulator of the best-split search loops (`bestTest`, `bestGain`,
`bestSplits`, `alternativeSplits`). -/
structure BestState where
  bestTest : Option SplitTest
  bestGain : ℚ
  bestSplits : List Instance × List Instance
  alts : List SplitTest

/-- Initial accumulator: `bestTest = null`, `bestGain = -1`, empty splits and
alternatives. -/
def initBest : BestState := ⟨none, -1, ([], []), []⟩

/-- One candidate step of the TSP/WTSP search loops: score the test by plain
information gain (`stats.entropy - (|s0|·e0 + |s1|·e1)/n`), take it as the new
best when it strictly improves and both branches are nonempty (pushing the
previous best to the alternatives), otherwise keep it as an alternative when
its gain exceeds `0.8 ×` the running best. -/
def tspStep (env : Env) (S : List Instance) (pE : ℚ) (st : BestState)
    (t : SplitTest) : BestState :=
  let s := splitInstances S t
  let gain := pE -
    (((s.1.length : ℚ) * (calculateStats env s.1).entropy
      + (s.2.length : ℚ) * (calculateStats env s.2).entropy) / (S.length : ℚ))
  if gain > st.bestGain ∧ s.1.length > 0 ∧ s.2.length > 0 then
    { bestTest := some t, bestGain := gain, bestSplits := s
      alts := st.alts ++ st.bestTest.toList }
  else if gain > st.bestGain * 0.8 then
    { st with alts := st.alts ++ [t] }
  else st

/-- The two directional pairwise tests of TSP for a pair `(a, b)`. -/
def tspCandidates (pE : ℚ) (a b : String) : List SplitTest :=
  [ { attr := a, condition := .lt, value := .str b, algorithm := "TSP"
      entropy := pE, isValueAttribute := true, weight := none }
  , { attr := b, condition := .lt, value := .str a, algorithm := "TSP"
      entropy := pE, isValueAttribute := true, weight := none } ]

/-- `Number(i.values[a]) / Number(i.values[b])` as used by WTSP; WTSP only runs
over attributes that parse as numbers on every instance, so `getD 0` is only a
typing device there (a zero denominator, JS `Infinity`/`NaN`, is mapped to 0 by
rational division). -/
def ratioOf (i : Instance) (a b : String) : ℚ :=
  ((toNum (lookupVal i a)).getD 0) / ((toNum (lookupVal i b)).getD 0)

/-- WTSP `findThresholds(attr1, attr2)`: sort the instances by the `a/b` ratio
(stably, as JS `sort`), then take the midpoint of the ratios of every adjacent
pair whose class labels differ. -/
def findThresholds (S : List Instance) (a b : String) : List ℚ :=
  let sortedByRatio := S.insertionSort (fun x y => ratioOf x a b ≤ ratioOf y a b)
  (consecPairs sortedByRatio).filterMap (fun p =>
    if p.1.cls ≠ p.2.cls then some ((ratioOf p.1 a b + ratioOf p.2 a b) / 2)
    else none)

/-- The WTSP candidate tests for a pair `(a, b)`: one `a < b` test per
threshold, the threshold stored as `weight`. -/
def wtspCandidates (S : List Instance) (pE : ℚ) (a b : String) :
    List SplitTest :=
  (findThresholds S a b).map (fun w =>
    { attr := a, condition := .lt, value := .str b, algorithm := "WTSP"
      entropy := pE, isValueAttribute := true, weight := some w })

/-- `a !== bestTest.attribute && a !== bestTest.value` (the second comparand is
a JS string-or-number value). -/
def keepAttr (bt : SplitTest) (a : String) : Bool :=
  a ≠ bt.attr ∧ JSVal.str a ≠ bt.value

/-- The full TSP candidate scan over all attribute pairs. -/
def tspSearch (env : Env) (S : List Instance) (pE : ℚ)
    (attrs : List String) : BestState :=
  (pairsOf attrs).foldl
    (fun st p => (tspCandidates pE p.1 p.2).foldl (tspStep env S pE) st)
    initBest

/-- `TSP.buildNode` (`lib/algorithms/TSP.ts` lines 7-96). The `ℕ` argument and
result thread the position in the random id stream. -/
def buildNodeTSP (env : Env) (cfg : ExperimentConfig) :
    List Instance → ℕ → List String → ℕ → Element × ℕ
  | insts, depth, attrs, k =>
    let stats := calculateStats env insts
    if hstop : cfg.maxDepth ≤ depth ∨ insts.length ≤ cfg.minInstancesPerLeaf ∨
        stats.entropy ≤ cfg.entropyThreshold ∨ attrs.length < 2 then
      createLeafFromGroup env k insts
    else
      match (tspSearch env insts stats.entropy attrs).bestTest with
      | none => createLeafFromGroup env k insts
      | some bt =>
        if (tspSearch env insts stats.entropy attrs).bestGain ≤ 0 then
          createLeafFromGroup env k insts
        else
          let remaining := attrs.filter (keepAttr bt)
          let nodeId := "node-" ++ env.gen k
          let c0 := buildNodeTSP env cfg
            (tspSearch env insts stats.entropy attrs).bestSplits.1
            (depth + 1) remaining (k + 1)
          let c1 := buildNodeTSP env cfg
            (tspSearch env insts stats.entropy attrs).bestSplits.2
            (depth + 1) remaining c0.2
          (.mk nodeId .node stats (some bt) (some (c0.1, c1.1))
            ((tspSearch env insts stats.entropy attrs).alts.take 5)
            none none none, c1.2)
  termination_by insts depth => cfg.maxDepth - depth
  decreasing_by
    all_goals { push_neg at hstop; omega }

/-- The full WTSP candidate scan over all attribute pairs and thresholds. -/
def wtspSearch (env : Env) (S : List Instance) (pE : ℚ)
    (attrs : List String) : BestState :=
  (pairsOf attrs).foldl
    (fun st p => (wtspCandidates S pE p.1 p.2).foldl (tspStep env S pE) st)
    initBest

/-- `WTSP.buildNode` (`lib/algorithms/WTSP.ts` lines 7-109): identical shape to
TSP, with the per-pair threshold candidates instead of the two directional
tests. -/
def buildNodeWTSP (env : Env) (cfg : ExperimentConfig) :
    List Instance → ℕ → List String → ℕ → Element × ℕ
  | insts, depth, attrs, k =>
    let stats := calculateStats env insts
    if hstop : cfg.maxDepth ≤ depth ∨ insts.length ≤ cfg.minInstancesPerLeaf ∨
        stats.entropy ≤ cfg.entropyThreshold ∨ attrs.length < 2 then
      createLeafFromGroup env k insts
    else
      match (wtspSearch env insts stats.entropy attrs).bestTest with
      | none => createLeafFromGroup env k insts
      | some bt =>
        if (wtspSearch env insts stats.entropy attrs).bestGain ≤ 0 then
          createLeafFromGroup env k insts
        else
          let remaining := attrs.filter (keepAttr bt)
          let nodeId := "node-" ++ env.gen k
          let c0 := buildNodeWTSP env cfg
            (wtspSearch env insts stats.entropy attrs).bestSplits.1
            (depth + 1) remaining (k + 1)
          let c1 := buildNodeWTSP env cfg
            (wtspSearch env insts stats.entropy attrs).bestSplits.2
            (depth + 1) remaining c0.2
          (.mk nodeId .node stats (some bt) (some (c0.1, c1.1))
            ((wtspSearch env insts stats.entropy attrs).alts.take 5)
            none none none, c1.2)
  termination_by insts depth => cfg.maxDepth - depth
  decreasing_by
    all_goals { push_neg at hstop; omega }

/-- The numeric sort key of C4.5's `sort((a,b) => Number(a) - Number(b))`;
`getD 0` stands for the unspecified placement JS gives a `NaN` comparator
(theorems about the numeric branch assume all-numeric values, where `toNum`
is total). -/
def numKey (v : JSVal) : ℚ := (toNum v).getD 0

/-- One numeric-threshold candidate step of `C45.buildNode`: skip empty
branches, score by gain ratio (gain / intrinsic value, 0 when the intrinsic
value is 0). -/
def c45NumStep (env : Env) (S : List Instance) (pE : ℚ) (a : String)
    (st : BestState) (thr : ℚ) : BestState :=
  let t : SplitTest :=
    { attr := a, condition := .le, value := .num thr, algorithm := "C4.5"
      entropy := pE, isValueAttribute := false, weight := none }
  let s0 := S.filter (fun i =>
    match toNum (lookupVal i a) with | some q => decide (q ≤ thr) | none => false)
  let s1 := S.filter (fun i =>
    match toNum (lookupVal i a) with | some q => decide (q > thr) | none => false)
  if s0.length = 0 ∨ s1.length = 0 then st
  else
    let g := informationGain env S (s0, s1)
    let ivv := env.iv s0.length s1.length S.length
    let gr := if ivv = 0 then 0 else g / ivv
    if gr > st.bestGain then
      { bestTest := some t, bestGain := gr, bestSplits := (s0, s1)
        alts := st.alts ++ st.bestTest.toList }
    else if gr > st.bestGain * 0.8 then { st with alts := st.alts ++ [t] }
    else st

/-- One categorical candidate step of `C45.buildNode`: branches by strict
(`===`) equality with the observed value. -/
def c45CatStep (env : Env) (S : List Instance) (pE : ℚ) (a : String)
    (st : BestState) (v : JSVal) : BestState :=
  let t : SplitTest :=
    { attr := a, condition := .eq, value := v, algorithm := "C4.5"
      entropy := pE, isValueAttribute := false, weight := none }
  let s0 := S.filter (fun i => lookupVal i a = v)
  let s1 := S.filter (fun i => lookupVal i a ≠ v)
  if s0.length = 0 ∨ s1.length = 0 then st
  else
    let g := informationGain env S (s0, s1)
    let ivv := env.iv s0.length s1.length S.length
    let gr := if ivv = 0 then 0 else g / ivv
    if gr > st.bestGain then
      { bestTest := some t, bestGain := gr, bestSplits := (s0, s1)
        alts := st.alts ++ st.bestTest.toList }
    else if gr > st.bestGain * 0.8 then { st with alts := st.alts ++ [t] }
    else st

/-- The per-attribute body of `C45.buildNode`'s search: numeric when the first
observed value is a number (sorted unique values, midpoint thresholds),
categorical otherwise (one `==` test per unique observed value). -/
def c45AttrStep (env : Env) (S : List Instance) (pE : ℚ) (st : BestState)
    (a : String) : BestState :=
  let values := S.map (fun i => lookupVal i a)
  match values with
  | [] => st
  | v0 :: _ =>
    match v0 with
    | .num _ =>
      let sortedValues := (firstDedup values).insertionSort
        (fun x y => numKey x ≤ numKey y)
      let thresholds := (consecPairs sortedValues).map
        (fun p => (numKey p.1 + numKey p.2) / 2)
      thresholds.foldl (c45NumStep env S pE a) st
    | _ =>
      let uniqueValues := firstDedup values
      uniqueValues.foldl (c45CatStep env S pE a) st

/-- The full C4.5 candidate scan over all available attributes. -/
def c45Search (env : Env) (S : List Instance) (pE : ℚ)
    (attrs : List String) : BestState :=
  attrs.foldl (c45AttrStep env S pE) initBest

/-- `C45.buildNode` (`lib/algorithms/C45.ts` lines 7-140). -/
def buildNodeC45 (env : Env) (cfg : ExperimentConfig) :
    List Instance → ℕ → List String → ℕ → Element × ℕ
  | insts, depth, attrs, k =>
    let stats := calculateStats env insts
    if hstop : cfg.maxDepth ≤ depth ∨ insts.length ≤ cfg.minInstancesPerLeaf ∨
        stats.entropy ≤ cfg.entropyThreshold ∨ attrs.length = 0 ∨
        stats.classDistribution.length ≤ 1 then
      createLeafFromGroup env k insts
    else
      match (c45Search env insts stats.entropy attrs).bestTest with
      | none => createLeafFromGroup env k insts
      | some bt =>
        if (c45Search env insts stats.entropy attrs).bestGain ≤ 0 then
          createLeafFromGroup env k insts
        else
          let remaining := attrs.filter (fun a => a ≠ bt.attr)
          let nodeId := "node-" ++ env.gen k
          let c0 := buildNodeC45 env cfg
            (c45Search env insts stats.entropy attrs).bestSplits.1
            (depth + 1) remaining (k + 1)
          let c1 := buildNodeC45 env cfg
            (c45Search env insts stats.entropy attrs).bestSplits.2
            (depth + 1) remaining c0.2
          (.mk nodeId .node stats (some bt) (some (c0.1, c1.1))
            ((c45Search env insts stats.entropy attrs).alts.take 5)
            none none none, c1.2)
  termination_by insts depth => cfg.maxDepth - depth
  decreasing_by
    all_goals { push_neg at hstop; omega }

/-- Attribute keys of the first instance (`Object.keys(instances[0].values)`,
empty when there are no instances). -/
def firstKeys (insts : List Instance) : List String :=
  match insts with
  | [] => []
  | i0 :: _ => i0.values.map Prod.fst

/-- `C45.buildTree`. -/
def buildTreeC45 (env : Env) (insts : List Instance) (cfg : ExperimentConfig)
    (k : ℕ) : DecisionTree × ℕ :=
  let attrs := (firstKeys insts).filter (fun a =>
    a ∉ cfg.excludedAttributes ∧ a ≠ cfg.decisionAttribute)
  let r := buildNodeC45 env cfg insts 0 attrs k
  ({ id := "c45-" ++ env.gen r.2, root := r.1, config := cfg }, r.2 + 1)

/-- The numeric-attribute pool of TSP/WTSP: keys of the first instance that are
not excluded, not the decision attribute, and parse as a number on every
instance. -/
def numericAttrs (insts : List Instance) (cfg : ExperimentConfig) :
    List String :=
  (firstKeys insts).filter (fun a =>
    a ∉ cfg.excludedAttributes ∧ a ≠ cfg.decisionAttribute ∧
      insts.all (fun i => (toNum (lookupVal i a)).isSome))

/-- `TSP.buildTree`: raises the insufficient-attributes error when fewer than
two numeric attributes remain. -/
def buildTreeTSP (env : Env) (insts : List Instance) (cfg : ExperimentConfig)
    (k : ℕ) : Except String (DecisionTree × ℕ) :=
  let attrs := numericAttrs insts cfg
  if attrs.length < 2 then .error "TSP requires at least 2 numeric attributes"
  else
    let r := buildNodeTSP env cfg insts 0 attrs k
    .ok ({ id := "tsp-" ++ env.gen r.2, root := r.1, config := cfg }, r.2 + 1)

/-- `WTSP.buildTree`. -/
def buildTreeWTSP (env : Env) (insts : List Instance) (cfg : ExperimentConfig)
    (k : ℕ) : Except String (DecisionTree × ℕ) :=
  let attrs := numericAttrs insts cfg
  if attrs.length < 2 then .error "WTSP requires at least 2 numeric attributes"
  else
    let r := buildNodeWTSP env cfg insts 0 attrs k
    .ok ({ id := "wtsp-" ++ env.gen r.2, root := r.1, config := cfg }, r.2 + 1)

/-- The three algorithm tags of the engine's registry. -/
inductive AlgTag where
  | c45 | tsp | wtsp
deriving DecidableEq, Repr

/-- `algorithms[tag].buildTree(instances, config)` (C4.5 never raises). -/
def runAlgorithm (env : Env) (tag : AlgTag) (insts : List Instance)
    (cfg : ExperimentConfig) (k : ℕ) : Except String (DecisionTree × ℕ) :=
  match tag with
  | .c45 => .ok (buildTreeC45 env insts cfg k)
  | .tsp => buildTreeTSP env insts cfg k
  | .wtsp => buildTreeWTSP env insts cfg k


/-- The engine's state: the current tree and the full instance set it was built
from (`TreeEngine`'s constructor arguments). -/
structure EngineState where
  tree : DecisionTree
  dataset : List Instance

/-- `TreeEngine.getInstancesForNode`. -/
def getInstancesForNode (st : EngineState) (nodeId : String) : List Instance :=
  st.dataset.filter (fun i => reachesNode st.tree.root i nodeId)

/-- `TreeEngine.recursivelyUpdateStatistics(element, instances)`: refresh
`statistics` everywhere; on leaves also `canExpand`, `classDistribution` and
`predictedClass`; on nodes re-split by the element's own (unchanged) test and
recurse. -/
def recursivelyUpdateStatistics (env : Env) :
    Element → List Instance → Element
  | .mk i ty _ te ch alts pc cd ce, insts =>
    let stats := calculateStats env insts
    match ty with
    | .leaf =>
      .mk i .leaf stats te ch alts
        (some (majorityClass stats.classDistribution))
        (some stats.classDistribution)
        (some (decide (stats.entropy > 0)))
    | .node =>
      match ch with
      | some (l, r) =>
        let gs := splitInstances insts (te.getD dummyTest)
        .mk i .node stats te
          (some (recursivelyUpdateStatistics env l gs.1,
                 recursivelyUpdateStatistics env r gs.2)) alts pc cd ce
      | none => .mk i .node stats te none alts pc cd ce

/-- `TreeEngine.applyDistributionChange(nodeId, newTest)`: requires the id to
resolve to a node; sets its test and refreshes each child's subtree statistics
from the re-split reaching instances. -/
def applyDistributionChange (env : Env) (st : EngineState) (nodeId : String)
    (newTest : SplitTest) : Except String DecisionTree :=
  match findNodeById st.tree.root nodeId with
  | some e =>
    if e.typ = .node then
      let insts := getInstancesForNode st nodeId
      let groups := splitInstances insts newTest
      .ok { st.tree with root := mapAtNode st.tree.root nodeId (fun nd =>
        match nd with
        | .mk i ty stm _ ch alts pc cd ce =>
          match ch with
          | some (l, r) =>
            .mk i ty stm (some newTest)
              (some (recursivelyUpdateStatistics env l groups.1,
                     recursivelyUpdateStatistics env r groups.2)) alts pc cd ce
          | none => .mk i ty stm (some newTest) none alts pc cd ce) }
    else .error "Invalid node"
  | none => .error "Invalid node"

/-- Set (only) the test of the element with the given id. -/
def setTestAt (t : DecisionTree) (nodeId : String) (newTest : SplitTest) :
    DecisionTree :=
  { t with root := mapAtNode t.root nodeId (fun nd =>
      match nd with
      | .mk i ty stm _ ch alts pc cd ce =>
        .mk i ty stm (some newTest) ch alts pc cd ce) }

/-- `TreeEngine.rebuildSubtree(nodeId, algorithm, customTest?)`. The result
pairs the surfaced error (if any) with the tree as left behind: `node.test` is
assigned **before** the children builds are awaited, so a failing build leaves
the test already replaced while the children are untouched. -/
def rebuildSubtree (env : Env) (st : EngineState) (nodeId : String)
    (tag : AlgTag) (customTest : Option SplitTest) (k : ℕ) :
    Option String × DecisionTree :=
  match findNodeById st.tree.root nodeId with
  | some e =>
    if e.typ = .node then
      let insts := getInstancesForNode st nodeId
      let testToUse := customTest.getD (e.test.getD dummyTest)
      let groups := splitInstances insts testToUse
      match runAlgorithm env tag groups.1 st.tree.config k with
      | .error msg => (some msg, setTestAt st.tree nodeId testToUse)
      | .ok (t0, k1) =>
        match runAlgorithm env tag groups.2 st.tree.config k1 with
        | .error msg => (some msg, setTestAt st.tree nodeId testToUse)
        | .ok (t1, _) =>
          (none, { st.tree with root := mapAtNode st.tree.root nodeId (fun nd =>
            match nd with
            | .mk i ty stm _ _ alts pc cd ce =>
              .mk i ty stm (some testToUse) (some (t0.root, t1.root))
                alts pc cd ce) })
    else (some "Invalid node", st.tree)
  | none => (some "Invalid node", st.tree)

/-- `Object.assign(node, leaf)` for a `createLeafFromGroup` result: copies the
leaf object's own keys (`id`, `type`, `predictedClass`, `classDistribution`,
`canExpand`, `statistics`) and leaves the target's other fields (`test`,
`children`, `alternativeSplits`) in place. -/
def assignLeafFields (e lf : Element) : Element :=
  .mk lf.id lf.typ lf.statistics e.test e.children e.alternativeSplits
    lf.predictedClass lf.classDistribution lf.canExpand

/-- `makeLeaf(nodeId)` of `TreeEngineContext`: no-op when the id does not
resolve; otherwise `Object.assign` the fresh leaf onto the found element. -/
def makeLeaf (env : Env) (st : EngineState) (nodeId : String) (k : ℕ) :
    DecisionTree :=
  match findNodeById st.tree.root nodeId with
  | none => st.tree
  | some _ =>
    let insts := getInstancesForNode st nodeId
    let lf := (createLeafFromGroup env k insts).1
    let newRoot := mapAtNode st.tree.root nodeId (fun e => assignLeafFields e lf)
    { st.tree with root := newRoot }

/-- `Object.assign(node, { ...newTree.root, id: node.id })`: the spread of a
canonical element copies exactly its own keys (leaf keys for a leaf, node keys
for a node), and the explicit `id` keeps the target's id. -/
def assignSpreadKeepId (e root : Element) : Element :=
  match root.typ with
  | .leaf =>
    .mk e.id .leaf root.statistics e.test e.children e.alternativeSplits
      root.predictedClass root.classDistribution root.canExpand
  | .node =>
    .mk e.id .node root.statistics root.test root.children
      root.alternativeSplits e.predictedClass e.classDistribution e.canExpand

/-- `unfoldLeafOnce(nodeId, algorithm)` of `TreeEngineContext`: silently
returns when the id does not resolve to a leaf; otherwise builds a
`maxDepth = 1` tree over the leaf's reaching instances with the named
algorithm and assigns its root (id preserved) onto the leaf. A build error
propagates with the tree untouched. -/
def unfoldLeafOnce (env : Env) (st : EngineState) (nodeId : String)
    (tag : AlgTag) (k : ℕ) : Except String DecisionTree :=
  match findNodeById st.tree.root nodeId with
  | some e =>
    if e.typ = .leaf then
      let insts := getInstancesForNode st nodeId
      let cfg1 := { st.tree.config with maxDepth := 1 }
      match runAlgorithm env tag insts cfg1 k with
      | .error msg => .error msg
      | .ok (newTree, _) =>
        let newRoot := mapAtNode st.tree.root nodeId
          (fun el => assignSpreadKeepId el newTree.root)
        .ok { st.tree with root := newRoot }
    else .ok st.tree
  | none => .ok st.tree


/-- A confusion matrix: the JS nested record keyed by the observed labels is
modelled as a total function (all observed-label cells are initialized to 0
before accumulation; no other key is ever read). -/
structure ConfusionMatrix where
  matrix : String → String → ℕ
  classLabels : List String

/-- JS `Array.prototype.sort`'s default string comparator: lexicographic
comparison of the code sequences, modelled on the code-point lists
(`String.data`).  Written as a structural Boolean so concrete sorts
evaluate. -/
def charListLe : List Char → List Char → Bool
  | [], _ => true
  | _ :: _, [] => false
  | a :: as, b :: bs =>
    if a.toNat < b.toNat then true
    else if b.toNat < a.toNat then false
    else charListLe as bs

/-- The string order used by `createConfusionMatrix`'s label sort. -/
def strLe (a b : String) : Bool := charListLe a.data b.data

/-- Increment cell `[a][p]`. -/
def incrCell (m : String → String → ℕ) (a p : String) :
    String → String → ℕ :=
  fun x y => if x = a ∧ y = p then m x y + 1 else m x y

/-- `createConfusionMatrix(actual, predicted)`
(`lib/utils/metrics.ts` lines 3-28): length check, sorted union of observed
labels, zero-initialized cells, then one increment per index. -/
def createConfusionMatrix (actual predicted : List String) :
    Except String ConfusionMatrix :=
  if actual.length ≠ predicted.length then
    .error "Actual and predicted arrays must have the same length"
  else
    let classLabels :=
      (firstDedup (actual ++ predicted)).insertionSort
        (fun a b => strLe a b = true)
    let m := (actual.zip predicted).foldl (fun m ap => incrCell m ap.1 ap.2)
      (fun _ _ => 0)
    .ok { matrix := m, classLabels := classLabels }

/-- An ROC point. -/
structure ROCPoint where
  fpr : ℚ
  tpr : ℚ
  threshold : ℚ
deriving DecidableEq, Repr

/-- The default thresholds `[0, 0.01, …, 0.99]`. -/
def defaultThresholds : List ℚ := (List.range 100).map (fun i : ℕ => ((i : ℚ) / 100))

/-- The interior ROC point for one threshold: predict positive iff
`score ≥ threshold`. -/
def rocPointAt (actual : List String) (predicted : List ℚ)
    (positiveClass : String) (totalPositives totalNegatives : ℕ)
    (threshold : ℚ) : ROCPoint :=
  let pairs := actual.zip predicted
  let tp := pairs.countP (fun ap => ap.1 = positiveClass ∧ threshold ≤ ap.2)
  let fp := pairs.countP (fun ap => ap.1 ≠ positiveClass ∧ threshold ≤ ap.2)
  { tpr := (tp : ℚ) / (totalPositives : ℚ)
    fpr := (fp : ℚ) / (totalNegatives : ℚ)
    threshold := threshold }

/-- `generateROCCurve(actual, predicted, positiveClass, thresholds)`
(`lib/utils/metrics.ts` lines 99-140): requires at least one positive and one
negative; prepends `(0,0,1)`, appends `(1,1,0)`, and emits one point per
threshold in the given (ascending) order. -/
def generateROCCurve (actual : List String) (predicted : List ℚ)
    (positiveClass : String) (thresholds : List ℚ := defaultThresholds) :
    Except String (List ROCPoint) :=
  let totalPositives := actual.countP (fun a => a = positiveClass)
  let totalNegatives := actual.length - totalPositives
  if totalPositives = 0 ∨ totalNegatives = 0 then
    .error "ROC curve requires both positive and negative instances"
  else
    .ok (⟨0, 0, 1⟩ ::
      (thresholds.map
        (rocPointAt actual predicted positiveClass totalPositives
          totalNegatives) ++ [⟨1, 1, 0⟩]))

/-- `calculateAUC(points)`: trapezoidal integration over the points as given. -/
def calculateAUC (rocPoints : List ROCPoint) : ℚ :=
  ((consecPairs rocPoints).map (fun pq =>
    (pq.2.fpr - pq.1.fpr) * ((pq.2.tpr + pq.1.tpr) / 2))).sum

/-- The `(actual, predicted)` pairs recorded by `TreeEngine.evaluateTree`:
instances with a falsy class label are skipped, the rest descend the tree;
an instance stopping on a node with a missing child is skipped too. -/
def recordedPredictions (root : Element) (insts : List Instance) :
    List (String × String) :=
  insts.filterMap (fun i =>
    match i.cls with
    | none => none
    | some c =>
      if c = "" then none
      else (descend root i).map (fun p => (c, p)))

/-- `EvaluationResult` restricted to the fields the claims mention (the
`metrics` record is orthogonal to the modelled claims). -/
structure EvaluationResult where
  confusionMatrix : ConfusionMatrix
  rocCurve : Option (List ROCPoint)

/-- `TreeEngine.evaluateTree(instances)`
(`lib/algorithms/HybridAlgorithm.ts` lines 231-274): record predictions, build
the confusion matrix, and attach an ROC curve exactly when two class labels
were observed, scoring each prediction `1` iff it equals `classLabels[1]`,
which is also the positive class. A `DegenerateROC` error propagates (there is
no handler). -/
def evaluateTree (st : EngineState) (insts : List Instance) :
    Except String EvaluationResult :=
  let predictions := recordedPredictions st.tree.root insts
  match createConfusionMatrix (predictions.map Prod.fst)
      (predictions.map Prod.snd) with
  | .error msg => .error msg
  | .ok cm =>
    if h2 : cm.classLabels.length = 2 then
      let pos := cm.classLabels[1]
      let scores := predictions.map (fun p => if p.2 = pos then (1 : ℚ) else 0)
      match generateROCCurve (predictions.map Prod.fst) scores pos with
      | .error msg => .error msg
      | .ok curve => .ok { confusionMatrix := cm, rocCurve := some curve }
    else
      .ok { confusionMatrix := cm, rocCurve := none }


/-! ## Specification-side definitions used by the theorems -/

/-- Erase every id in a tree (ids are the only run-dependent data of a build). -/
def eraseIds : Element → Element
  | .mk _ ty st te (some (l, r)) alts pc cd ce =>
    .mk "" ty st te (some (eraseIds l, eraseIds r)) alts pc cd ce
  | .mk _ ty st te none alts pc cd ce => .mk "" ty st te none alts pc cd ce

/-- The structural skeleton of an element: ids, type tags, tests, alternative
splits and the children shape, with statistics and leaf summaries blanked.
Two elements with the same skeleton differ at most in the data that
`recursivelyUpdateStatistics` refreshes. -/
def skel : Element → Element
  | .mk i ty _ te (some (l, r)) alts _ _ _ =>
    .mk i ty ⟨0, 0, []⟩ te (some (skel l, skel r)) alts none none none
  | .mk i ty _ te none alts _ _ _ => .mk i ty ⟨0, 0, []⟩ te none alts none none none

/-- The statistics of every element of the subtree agree with the instance
subset assigned by re-splitting from `S` with the stored tests, and every
leaf's summary fields are derived from its assigned subset. -/
def StatsFollow (env : Env) : Element → List Instance → Prop
  | .mk _ ty stats te ch _ pc cd ce, S =>
    stats = calculateStats env S ∧
    match ty with
    | .leaf =>
      pc = some (majorityClass (classDistOf S)) ∧
      cd = some (classDistOf S) ∧
      ce = some (decide ((calculateStats env S).entropy > 0))
    | .node =>
      match ch with
      | some (l, r) =>
        StatsFollow env l (splitInstances S (te.getD dummyTest)).1 ∧
        StatsFollow env r (splitInstances S (te.getD dummyTest)).2
      | none => True

/-- Conjunct B of the built-tree invariant: every internal node's
`totalInstances` is the sum of its children's. -/
def totalsOk : Element → Bool
  | .mk _ .node st _ (some (l, r)) _ _ _ _ =>
    decide (st.totalInstances =
      l.statistics.totalInstances + r.statistics.totalInstances) &&
    totalsOk l && totalsOk r
  | _ => true

/-- Conjunct A of the built-tree invariant, with a node's build subset made
observable through `calculateStats`: descending from `S`, each node's
`children[0]` carries the statistics of exactly the instances on which the
node's test evaluates true, `children[1]` of the rest. -/
def evalSplitOk (env : Env) : Element → List Instance → Bool
  | .mk _ .node _ te (some (l, r)) _ _ _ _, S =>
    let gs := splitInstances S (te.getD dummyTest)
    decide (l.statistics = calculateStats env gs.1) &&
    decide (r.statistics = calculateStats env gs.2) &&
    evalSplitOk env l gs.1 && evalSplitOk env r gs.2
  | _, _ => true

/-- The best-state splits partition `S`: their sizes sum to `|S|` and both
sides draw from `S`. (What survives of conjunct A for the C4.5 scan, whose
groups are filters of `S` but need not be the `evaluate` split.) -/
def SplitsPartition (S : List Instance) (st : BestState) : Prop :=
  st.bestSplits.1.length + st.bestSplits.2.length = S.length ∧
  (∀ i ∈ st.bestSplits.1, i ∈ S) ∧ (∀ i ∈ st.bestSplits.2, i ∈ S)

/-- A concrete, fully computable stand-in impurity for `H` in counterexamples
and witnesses: the number of distinct observed classes minus one. Like Shannon
entropy it is 0 exactly on distributions with at most one class.
(Counterexamples built with it are genuine: the refuted claims quantify over
the environment.) -/
def distinctH (d : ClassDist) : ℚ := ((d.length - 1 : ℕ) : ℚ)

def qEnv : Env := ⟨distinctH, fun _ _ _ => 1, fun k => toString k⟩

/-- The same environment with a different id stream (used to exercise
determinism across runs). -/
def qEnvZ : Env := ⟨distinctH, fun _ _ _ => 1, fun k => "z" ++ toString k⟩

/-- Shared experiment configuration for the concrete scenarios. -/
def cfgA : ExperimentConfig := ⟨["C4.5"], 5, 1, 0, "cls", []⟩

/-- Instances whose attribute `A` holds the distinct strings "01" and "1",
both of which JS coerces to the number 1. -/
def ceI1 : Instance := ⟨"i1", [("A", .str "01")], some "x"⟩
def ceI2 : Instance := ⟨"i2", [("A", .str "1")], some "y"⟩
def ceI3 : Instance := ⟨"i3", [("A", .str "2")], some "x"⟩

/-- The categorical C4.5 test `A == "01"` as the scan stamps it. -/
def ceT01 : SplitTest :=
  { attr := "A", condition := .eq, value := .str "01", algorithm := "C4.5"
    entropy := 1, isValueAttribute := false, weight := none }

/-- The categorical C4.5 test `A == "1"`. -/
def ceT1 : SplitTest :=
  { attr := "A", condition := .eq, value := .str "1", algorithm := "C4.5"
    entropy := 1, isValueAttribute := false, weight := none }

/-- The leaf the C4.5 build creates for `[ceI1]`. -/
def ceL1 : Element :=
  .mk "leaf-1" .leaf ⟨1, 0, [("x", 1)]⟩ none none [] (some "x")
    (some [("x", 1)]) (some false)

/-- The leaf the C4.5 build creates for `[ceI2]`. -/
def ceL2 : Element :=
  .mk "leaf-2" .leaf ⟨1, 0, [("y", 1)]⟩ none none [] (some "y")
    (some [("y", 1)]) (some false)

/-- The root the C4.5 build produces over `[ceI1, ceI2]`. -/
def ceRoot : Element :=
  .mk "node-0" .node ⟨2, 1, [("x", 1), ("y", 1)]⟩ (some ceT01)
    (some (ceL1, ceL2)) [ceT1] none none none

/-- A WTSP-style weighted pairwise test with threshold weight 1/4. -/
def wTest : SplitTest :=
  { attr := "a", condition := .lt, value := .str "b", algorithm := "WTSP"
    entropy := 0, isValueAttribute := true, weight := some (1/4) }

/-- An instance with `a = 1`, `b = 3`: the ratio `a/b = 1/3` is not below the
weight 1/4. -/
def wInst : Instance := ⟨"j1", [("a", .num 1), ("b", .num 3)], some "x"⟩

/-- Two numeric-attribute instances perfectly separated by `A < B`. -/
def nIx : Instance := ⟨"ix", [("A", .num 1), ("B", .num 2)], some "x"⟩
def nIy : Instance := ⟨"iy", [("A", .num 3), ("B", .num 1)], some "y"⟩

/-- The pairwise test `A < B` as TSP would stamp it. -/
def tAB : SplitTest :=
  { attr := "A", condition := .lt, value := .str "B", algorithm := "TSP"
    entropy := 1, isValueAttribute := true, weight := none }

/-- The reverse pairwise test `B < A`. -/
def tBA : SplitTest :=
  { attr := "B", condition := .lt, value := .str "A", algorithm := "TSP"
    entropy := 1, isValueAttribute := true, weight := none }

/-- A leaf for `[nIx]`, consistent with its reaching set: it carries exactly
the fields a fresh build over `[nIx]` produces (predicted class "x",
distribution `{x: 1}`, entropy 0, `canExpand = false`). -/
def lfX : Element :=
  .mk "l1" .leaf (calculateStats qEnv [nIx]) none none []
    (some (majorityClass (classDistOf [nIx]))) (some (classDistOf [nIx]))
    (some (decide ((calculateStats qEnv [nIx]).entropy > 0)))

/-- A leaf for `[nIy]`, consistent with its reaching set. -/
def lfY : Element :=
  .mk "l2" .leaf (calculateStats qEnv [nIy]) none none []
    (some (majorityClass (classDistOf [nIy]))) (some (classDistOf [nIy]))
    (some (decide ((calculateStats qEnv [nIy]).entropy > 0)))

/-- A two-leaf tree over `[nIx, nIy]` split by `A < B`. -/
def treeL : DecisionTree :=
  { id := "t0"
    root := .mk "n0" .node ⟨2, 1, [("x", 1), ("y", 1)]⟩ (some tAB)
      (some (lfX, lfY)) [] none none none
    config := cfgA }

/-- Engine state over `treeL` and its instance set. -/
def stL : EngineState := ⟨treeL, [nIx, nIy]⟩

/-- An engine state whose dataset offers only one numeric attribute, so that a
TSP rebuild necessarily raises its insufficient-attributes error. -/
def oneAttrI : Instance := ⟨"o1", [("A", .num 1)], some "x"⟩
def oneAttrJ : Instance := ⟨"o2", [("A", .num 7)], some "y"⟩

def tOld : SplitTest :=
  { attr := "A", condition := .le, value := .num 5, algorithm := "C4.5"
    entropy := 1, isValueAttribute := false, weight := none }

def tNew : SplitTest :=
  { attr := "A", condition := .le, value := .num 2, algorithm := "C4.5"
    entropy := 1, isValueAttribute := false, weight := none }

def lfO1 : Element :=
  .mk "p1" .leaf ⟨1, 0, [("x", 1)]⟩ none none [] (some "x") (some [("x", 1)])
    (some false)

def lfO2 : Element :=
  .mk "p2" .leaf ⟨1, 0, [("y", 1)]⟩ none none [] (some "y") (some [("y", 1)])
    (some false)

def treeO : DecisionTree :=
  { id := "t1"
    root := .mk "n0" .node ⟨2, 1, [("x", 1), ("y", 1)]⟩ (some tOld)
      (some (lfO1, lfO2)) [] none none none
    config := cfgA }

def stO : EngineState := ⟨treeO, [oneAttrI, oneAttrJ]⟩


/-- Total cell sum of a confusion matrix over its label grid. -/
def cellSum (cm : ConfusionMatrix) : ℕ :=
  (cm.classLabels.map (fun a => (cm.classLabels.map (fun p => cm.matrix a p)).sum)).sum

/-- Diagonal sum of a confusion matrix. -/
def diagSum (cm : ConfusionMatrix) : ℕ :=
  (cm.classLabels.map (fun c => cm.matrix c c)).sum


/-! ## Helper lemmas on tree navigation and rewriting -/

/-- Structural induction for `Element` (the auto-generated eliminator of the
nested inductive is not directly usable by the `induction` tactic). -/
theorem Element.childInduction (P : Element → Prop)
    (h : ∀ id ty st te ch alts pc cd ce,
      (∀ l r, ch = some (l, r) → P l) →
      (∀ l r, ch = some (l, r) → P r) →
      P (.mk id ty st te ch alts pc cd ce)) :
    ∀ e, P e
  | .mk id ty st te (some (l, r)) alts pc cd ce =>
    h id ty st te _ alts pc cd ce
      (fun l' r' hh => by
        injection hh with hh1
        injection hh1 with h2 h3
        exact h2 ▸ Element.childInduction P h l)
      (fun l' r' hh => by
        injection hh with hh1
        injection hh1 with h2 h3
        exact h3 ▸ Element.childInduction P h r)
  | .mk id ty st te none alts pc cd ce =>
    h id ty st te none alts pc cd ce (fun _ _ hh => by cases hh)
      (fun _ _ hh => by cases hh)

theorem mapAtNode_unfold (id : String) (ty : ElTag) (st : NodeStatistics)
    (te : Option SplitTest) (ch : Option (Element × Element))
    (alts : List SplitTest) (pc : Option String) (cd : Option ClassDist)
    (ce : Option Bool) (nodeId : String) (f : Element → Element) :
    mapAtNode (.mk id ty st te ch alts pc cd ce) nodeId f =
      if id = nodeId then f (.mk id ty st te ch alts pc cd ce)
      else
        match ty, ch with
        | .node, some (l, r) =>
          if (findNodeById l nodeId).isSome then
            .mk id ty st te (some (mapAtNode l nodeId f, r)) alts pc cd ce
          else
            .mk id ty st te (some (l, mapAtNode r nodeId f)) alts pc cd ce
        | _, _ => .mk id ty st te ch alts pc cd ce := by
  cases ty <;> rcases ch with _ | ⟨l, r⟩ <;> rfl

theorem mapAtNode_eq_of_found (i : String) (f : Element → Element) :
    ∀ (r : Element) (e : Element), findNodeById r i = some e →
      mapAtNode r i f = mapAtNode r i (fun _ => f e) := by
  intro r
  induction r using Element.childInduction with
  | h id ty st te ch alts pc cd ce ihl ihr =>
    intro e hfind
    by_cases hid : id = i
    · have he : e = Element.mk id ty st te ch alts pc cd ce := by
        cases ty <;> rcases ch with _ | ⟨l, r⟩ <;>
          simp only [findNodeById, if_pos hid, Option.some.injEq] at hfind <;> exact hfind.symm
      subst he
      rw [mapAtNode_unfold, mapAtNode_unfold]
      simp only [if_pos hid]
    · cases ty <;> rcases ch with _ | ⟨l, r⟩
      · simp only [findNodeById, if_neg hid] at hfind
        exact Option.noConfusion hfind
      · simp only [findNodeById, if_neg hid] at hfind
        rw [mapAtNode_unfold, mapAtNode_unfold]
        simp only [if_neg hid]
        cases hl : findNodeById l i with
        | some x =>
          rw [hl] at hfind
          simp only [Option.some.injEq] at hfind
          subst hfind
          simp only [hl, Option.isSome_some, if_true]
          rw [ihl l r rfl x hl]
        | none =>
          rw [hl] at hfind
          simp only [hl, Option.isSome_none, Bool.false_eq_true, if_false]
          rw [ihr l r rfl e hfind]
      · simp only [findNodeById, if_neg hid] at hfind
        exact Option.noConfusion hfind
      · simp only [findNodeById, if_neg hid] at hfind
        exact Option.noConfusion hfind

theorem findNodeById_id (i : String) :
    ∀ (r : Element) (e : Element), findNodeById r i = some e → e.id = i := by
  intro r
  induction r using Element.childInduction with
  | h id ty st te ch alts pc cd ce ihl ihr =>
    intro e hfind
    by_cases hid : id = i
    · have he : e = Element.mk id ty st te ch alts pc cd ce := by
        cases ty <;> rcases ch with _ | ⟨l, r⟩ <;>
          simp only [findNodeById, if_pos hid, Option.some.injEq] at hfind <;>
            exact hfind.symm
      subst he
      exact hid
    · cases ty <;> rcases ch with _ | ⟨l, r⟩
      · simp only [findNodeById, if_neg hid] at hfind
        exact Option.noConfusion hfind
      · simp only [findNodeById, if_neg hid] at hfind
        cases hl : findNodeById l i with
        | some x =>
          rw [hl] at hfind
          simp only [Option.some.injEq] at hfind
          subst hfind
          exact ihl l r rfl x hl
        | none =>
          rw [hl] at hfind
          exact ihr l r rfl e hfind
      · simp only [findNodeById, if_neg hid] at hfind
        exact Option.noConfusion hfind
      · simp only [findNodeById, if_neg hid] at hfind
        exact Option.noConfusion hfind

theorem mapAtNode_fix (i : String) (f : Element → Element) :
    ∀ (r : Element) (e : Element), findNodeById r i = some e → f e = e →
      mapAtNode r i f = r := by
  intro r
  induction r using Element.childInduction with
  | h id ty st te ch alts pc cd ce ihl ihr =>
    intro e hfind hfe
    by_cases hid : id = i
    · have he : e = Element.mk id ty st te ch alts pc cd ce := by
        cases ty <;> rcases ch with _ | ⟨l, r⟩ <;>
          simp only [findNodeById, if_pos hid, Option.some.injEq] at hfind <;>
            exact hfind.symm
      subst he
      rw [mapAtNode_unfold]
      simp only [if_pos hid]
      exact hfe
    · cases ty <;> rcases ch with _ | ⟨l, r⟩
      · simp only [findNodeById, if_neg hid] at hfind
        exact Option.noConfusion hfind
      · simp only [findNodeById, if_neg hid] at hfind
        rw [mapAtNode_unfold]
        simp only [if_neg hid]
        cases hl : findNodeById l i with
        | some x =>
          rw [hl] at hfind
          simp only [Option.some.injEq] at hfind
          subst hfind
          simp only [hl, Option.isSome_some, if_true]
          rw [ihl l r rfl x hl hfe]
        | none =>
          rw [hl] at hfind
          simp only [hl, Option.isSome_none, Bool.false_eq_true, if_false]
          rw [ihr l r rfl e hfind hfe]
      · simp only [findNodeById, if_neg hid] at hfind
        exact Option.noConfusion hfind
      · simp only [findNodeById, if_neg hid] at hfind
        exact Option.noConfusion hfind

theorem findNodeById_mapAtNode (i : String) (f : Element → Element) :
    ∀ (r : Element) (e : Element), findNodeById r i = some e →
      (f e).id = e.id → findNodeById (mapAtNode r i f) i = some (f e) := by
  intro r
  induction r using Element.childInduction with
  | h id ty st te ch alts pc cd ce ihl ihr =>
    intro e hfind hfid
    by_cases hid : id = i
    · have he : e = Element.mk id ty st te ch alts pc cd ce := by
        cases ty <;> rcases ch with _ | ⟨l, r⟩ <;>
          simp only [findNodeById, if_pos hid, Option.some.injEq] at hfind <;>
            exact hfind.symm
      rw [mapAtNode_unfold]
      simp only [if_pos hid, ← he]
      rcases hfe : f e with ⟨fi, fty, fst, fte, fch, falts, fpc, fcd, fce⟩
      have : fi = i := by
        have := hfid
        rw [hfe] at this
        simp only [Element.id] at this
        rw [this, he]
        exact hid
      cases fty <;> rcases fch with _ | ⟨l, r⟩ <;>
        simp only [findNodeById, if_pos this]
    · cases ty <;> rcases ch with _ | ⟨l, r⟩
      · simp only [findNodeById, if_neg hid] at hfind
        exact Option.noConfusion hfind
      · simp only [findNodeById, if_neg hid] at hfind
        rw [mapAtNode_unfold]
        simp only [if_neg hid]
        cases hl : findNodeById l i with
        | some x =>
          rw [hl] at hfind
          simp only [Option.some.injEq] at hfind
          subst hfind
          simp only [hl, Option.isSome_some, if_true]
          simp only [findNodeById, if_neg hid]
          rw [ihl l r rfl x hl hfid]
        | none =>
          rw [hl] at hfind
          simp only [hl, Option.isSome_none, Bool.false_eq_true, if_false]
          simp only [findNodeById, if_neg hid, hl]
          exact ihr l r rfl e hfind hfid
      · simp only [findNodeById, if_neg hid] at hfind
        exact Option.noConfusion hfind
      · simp only [findNodeById, if_neg hid] at hfind
        exact Option.noConfusion hfind

/-! ## C1 -/

/-- C1: the claim is refuted by the code (code bug). `TreeUtils.evaluate`
never consults `test.weight`: two WTSP candidate tests of the same attribute
pair that differ only in their weight evaluate, and hence partition, exactly
alike. On the failing input (`a = 1`, `b = 3`, weight `1/4`) the test
evaluates to `true` although `value(a)/value(b) = 1/3` is not below the
weight. -/
theorem wtsp_weight_ignored_in_evaluate :
    (∀ (i : Instance) (t : SplitTest) (w1 w2 : Option ℚ),
      evaluate i { t with weight := w1 } = evaluate i { t with weight := w2 }) ∧
    (∀ (insts : List Instance) (t : SplitTest) (w1 w2 : Option ℚ),
      splitInstances insts { t with weight := w1 } =
        splitInstances insts { t with weight := w2 }) ∧
    wTest.weight = some (1 / 4) ∧
    evaluate wInst wTest = true ∧
    ¬ ratioOf wInst "a" "b" < (1 : ℚ) / 4 := by
  have hev : ∀ (i : Instance) (t : SplitTest) (w1 w2 : Option ℚ),
      evaluate i { t with weight := w1 } = evaluate i { t with weight := w2 } :=
    fun i t w1 w2 => by cases t; rfl
  refine ⟨hev, fun insts t w1 w2 => ?_, rfl, by decide, ?_⟩
  · have hf : (fun i => evaluate i { t with weight := w1 }) =
        fun i => evaluate i { t with weight := w2 } :=
      funext fun i => hev i t w1 w2
    have hg : (fun i => !evaluate i { t with weight := w1 }) =
        fun i => !evaluate i { t with weight := w2 } :=
      funext fun i => by rw [hev i t w1 w2]
    simp only [splitInstances, hf, hg]
  · have ha : lookupVal wInst "a" = .num 1 := by decide
    have hb : lookupVal wInst "b" = .num 3 := by decide
    norm_num [ratioOf, ha, hb, toNum]

/-! ## C2 -/

/-- C2 counterexample: `rebuildSubtree` with a `customTest` on a dataset that
makes TSP raise its insufficient-attributes error surfaces the error, yet the
target node's test has already been replaced by the custom test — the tree is
not left exactly as it was. -/
theorem rebuildSubtree_partial_mutation_counterexample :
    (rebuildSubtree qEnv stO "n0" .tsp (some tNew) 0).1.isSome = true ∧
    (rebuildSubtree qEnv stO "n0" .tsp (some tNew) 0).2.root.test = some tNew ∧
    stO.tree.root.test = some tOld ∧ tNew ≠ tOld :=
  ⟨by decide, by decide, by decide, by decide⟩

/-- Setting a node's test to the test it already carries leaves the tree
unchanged. -/
theorem setTestAt_self (t : DecisionTree) (nodeId : String) (e : Element)
    (t0 : SplitTest) (hf : findNodeById t.root nodeId = some e)
    (ht0 : e.test = some t0) : setTestAt t nodeId t0 = t := by
  rcases e with ⟨ei, ety, est, ete, ech, ealts, epc, ecd, ece⟩
  simp only [Element.test] at ht0
  subst ht0
  unfold setTestAt
  rw [mapAtNode_eq_of_found _ _ _ _ hf]
  rw [mapAtNode_fix _ _ _ _ hf rfl]

/-- C2 (amended): when `rebuildSubtree` fails after validation, the children
and every other part of the tree are untouched — the tree differs from the
original at most in the target node's test, which is already set to
`customTest ?? node.test`; in particular, when no custom test was supplied
(and the target node carries a test, as every canonical node does), the tree
is left exactly as it was. -/
theorem rebuildSubtree_error_frame (env : Env) (st : EngineState)
    (nodeId : String) (tag : AlgTag) (customTest : Option SplitTest) (k : ℕ)
    (msg : String) (t' : DecisionTree)
    (h : rebuildSubtree env st nodeId tag customTest k = (some msg, t')) :
    (t' = st.tree ∨
      ∃ e, findNodeById st.tree.root nodeId = some e ∧ e.typ = .node ∧
        t' = setTestAt st.tree nodeId (customTest.getD (e.test.getD dummyTest))) ∧
    (customTest = none →
      (∀ e, findNodeById st.tree.root nodeId = some e → e.test.isSome) →
      t' = st.tree) := by
  unfold rebuildSubtree at h
  rcases hf : findNodeById st.tree.root nodeId with _ | e
  case none =>
    rw [hf] at h
    simp only [Prod.mk.injEq] at h
    refine ⟨Or.inl h.2.symm, fun _ _ => h.2.symm⟩
  case some =>
    rw [hf] at h
    simp only at h
    by_cases ht : e.typ = ElTag.node
    · simp only [if_pos ht] at h
      have frame : setTestAt st.tree nodeId
            (customTest.getD (e.test.getD dummyTest)) = t' →
          (t' = st.tree ∨
            ∃ e2, (some e = some e2) ∧
              e2.typ = ElTag.node ∧
              t' = setTestAt st.tree nodeId
                (customTest.getD (e2.test.getD dummyTest))) ∧
          (customTest = none →
            (∀ e2, some e = some e2 → e2.test.isSome) → t' = st.tree) := by
        intro hset
        refine ⟨Or.inr ⟨e, rfl, ht, hset.symm⟩, fun hnone hsome => ?_⟩
        subst hnone
        rcases Option.isSome_iff_exists.mp (hsome e rfl) with ⟨t0, ht0⟩
        rw [← hset]
        simp only [Option.getD_none, ht0, Option.getD_some]
        exact setTestAt_self st.tree nodeId e t0 hf ht0
      cases hr1 : runAlgorithm env tag
          (splitInstances (getInstancesForNode st nodeId)
            (customTest.getD (e.test.getD dummyTest))).1 st.tree.config k with
      | error m1 =>
        rw [hr1] at h
        simp only [Prod.mk.injEq] at h
        exact frame h.2
      | ok p1 =>
        rw [hr1] at h
        simp only at h
        cases hr2 : runAlgorithm env tag
            (splitInstances (getInstancesForNode st nodeId)
              (customTest.getD (e.test.getD dummyTest))).2 st.tree.config p1.2 with
        | error m2 =>
          rw [hr2] at h
          simp only [Prod.mk.injEq] at h
          exact frame h.2
        | ok p2 =>
          rw [hr2] at h
          simp only [Prod.mk.injEq] at h
          exact absurd h.1 (by simp)
    · simp only [if_neg ht, Prod.mk.injEq] at h
      refine ⟨Or.inl h.2.symm, fun _ _ => h.2.symm⟩

/-- C2 witness: a concrete failing rebuild without a custom test leaves the
tree exactly unchanged. -/
theorem rebuildSubtree_error_frame_witness :
    ∃ msg t', rebuildSubtree qEnv stO "n0" .tsp none 0 = (some msg, t') ∧
      t' = stO.tree := by
  refine ⟨_, _, rfl, ?_⟩
  refine (rebuildSubtree_error_frame qEnv stO "n0" .tsp none 0 _ _ rfl).2 rfl ?_
  intro e he
  have hroot : findNodeById stO.tree.root "n0" = some treeO.root := rfl
  rw [hroot] at he
  injection he with he1
  rw [← he1]
  rfl


/-! ## C6 -/

/-- C6 counterexample: `makeLeaf` on the internal node `n0` flips its type tag
to `leaf`, but the `Object.assign` conversion leaves the old split test and
both children on the element — the converted element still carries a split
test and children. -/
theorem makeLeaf_residual_counterexample :
    (makeLeaf qEnv stO "n0" 0).root.typ = .leaf ∧
    (makeLeaf qEnv stO "n0" 0).root.test = some tOld ∧
    (makeLeaf qEnv stO "n0" 0).root.children.isSome = true :=
  ⟨by decide, by decide, by decide⟩

/-- C6 (amended): `makeLeaf(nodeId)` converts the resolved element in place to
type `leaf` whose `predictedClass` is the majority class of its current
reaching instances — but the element's previous `test` and `children` are not
discarded: they remain as residual fields (only the type tag, id, statistics
and leaf summaries are overwritten, the id by a fresh `leaf-` id). -/
theorem makeLeaf_spec (env : Env) (st : EngineState) (nodeId : String)
    (k : ℕ) (e : Element) (h : findNodeById st.tree.root nodeId = some e) :
    ∃ e', (makeLeaf env st nodeId k).root =
        mapAtNode st.tree.root nodeId (fun _ => e') ∧
      e'.typ = .leaf ∧
      e'.predictedClass =
        some (majorityClass (classDistOf (getInstancesForNode st nodeId))) ∧
      e'.classDistribution =
        some (classDistOf (getInstancesForNode st nodeId)) ∧
      e'.statistics = calculateStats env (getInstancesForNode st nodeId) ∧
      e'.test = e.test ∧ e'.children = e.children ∧
      e'.id = "leaf-" ++ env.gen k := by
  refine ⟨assignLeafFields e
    (createLeafFromGroup env k (getInstancesForNode st nodeId)).1, ?_, ?_⟩
  · unfold makeLeaf
    rw [h]
    simp only
    rw [mapAtNode_eq_of_found _ _ _ _ h]
  · rcases e with ⟨ei, ety, est, ete, ech, ealts, epc, ecd, ece⟩
    refine ⟨rfl, rfl, rfl, rfl, rfl, rfl, rfl⟩

/-- C6 witness: the amended conversion applied to the concrete node `n0`. -/
theorem makeLeaf_spec_witness :
    ∃ e', (makeLeaf qEnv stO "n0" 0).root =
        mapAtNode stO.tree.root "n0" (fun _ => e') ∧
      e'.typ = .leaf ∧
      e'.predictedClass =
        some (majorityClass (classDistOf (getInstancesForNode stO "n0"))) ∧
      e'.classDistribution =
        some (classDistOf (getInstancesForNode stO "n0")) ∧
      e'.statistics = calculateStats qEnv (getInstancesForNode stO "n0") ∧
      e'.test = treeO.root.test ∧ e'.children = treeO.root.children ∧
      e'.id = "leaf-" ++ qEnv.gen 0 :=
  makeLeaf_spec qEnv stO "n0" 0 treeO.root rfl


/-! ## C3 -/

/-- C3 counterexample: a non-degenerate call to `generateROCCurve` (default
thresholds) whose point list is not monotonically ordered by FPR: the point
for threshold 0 has FPR 1 and precedes points of smaller FPR. -/
theorem roc_not_fpr_sorted_counterexample :
    ∃ pts, generateROCCurve ["n", "p"] [0, 1] "p" = .ok pts ∧
      ¬ pts.Chain' (fun p q => p.fpr ≤ q.fpr) := by
  refine ⟨_, rfl, ?_⟩
  intro hchain
  obtain ⟨rest, hrest⟩ : ∃ rest,
      defaultThresholds = ((0 : ℕ) : ℚ) / 100 :: ((1 : ℕ) : ℚ) / 100 :: rest :=
    ⟨_, rfl⟩
  simp only [hrest] at hchain
  norm_num [List.chain'_cons, rocPointAt] at hchain
  exact absurd hchain.2.1 (by simp +decide [List.countP_cons, List.countP_nil])


/-- Default thresholds are ascending. -/
theorem defaultThresholds_ascending : defaultThresholds.Chain' (· ≤ ·) := by
  rw [List.chain'_iff_pairwise]
  unfold defaultThresholds
  rw [@List.pairwise_map ℕ ℚ (fun i => (i : ℚ) / 100) _ (List.range 100)]
  refine List.Pairwise.imp ?_ (List.pairwise_lt_range 100)
  intro a b hab
  rw [div_le_div_iff_of_pos_right (by norm_num : (0 : ℚ) < 100)]
  exact_mod_cast le_of_lt hab

/-- C3 (amended): a successful `generateROCCurve` over ascending thresholds
(as the default list is) begins with `(0,0,1)` and ends with `(1,1,0)`, but
the interior points are ordered by ascending threshold, hence in
**non-increasing** FPR order — the reverse of what `calculateAUC`'s
trapezoidal integration expects; the full list is not FPR-sorted. -/
theorem generateROCCurve_spec (actual : List String) (predicted : List ℚ)
    (pos : String) (thresholds : List ℚ) (pts : List ROCPoint)
    (hasc : thresholds.Chain' (· ≤ ·))
    (h : generateROCCurve actual predicted pos thresholds = .ok pts) :
    pts.head? = some ⟨0, 0, 1⟩ ∧ pts.getLast? = some ⟨1, 1, 0⟩ ∧
    ((pts.drop 1).dropLast).Chain' (fun p q => q.fpr ≤ p.fpr) := by
  unfold generateROCCurve at h
  by_cases hdeg : actual.countP (fun a => a = pos) = 0 ∨
      actual.length - actual.countP (fun a => a = pos) = 0
  · simp only [if_pos hdeg] at h
    exact Except.noConfusion h
  · simp only [if_neg hdeg, Except.ok.injEq] at h
    subst h
    refine ⟨rfl, ?_, ?_⟩
    · rw [show (⟨0, 0, 1⟩ : ROCPoint) ::
          (thresholds.map (rocPointAt actual predicted pos
            (actual.countP (fun a => a = pos))
            (actual.length - actual.countP (fun a => a = pos))) ++
            [⟨1, 1, 0⟩]) =
          ((⟨0, 0, 1⟩ : ROCPoint) ::
            thresholds.map (rocPointAt actual predicted pos
              (actual.countP (fun a => a = pos))
              (actual.length - actual.countP (fun a => a = pos)))) ++
            [⟨1, 1, 0⟩] from rfl]
      exact List.getLast?_concat _
    · simp only [List.drop_succ_cons, List.drop_zero]
      rw [List.dropLast_concat]
      rw [List.chain'_map]
      refine hasc.imp ?_
      intro a b hab
      unfold rocPointAt
      simp only
      push_neg at hdeg
      have hneg : (0 : ℚ) <
          ((actual.length - actual.countP (fun a => a = pos) : ℕ) : ℚ) := by
        exact_mod_cast Nat.pos_of_ne_zero hdeg.2
      rw [div_le_div_iff_of_pos_right hneg]
      have : ∀ x ∈ actual.zip predicted,
          (decide (x.1 ≠ pos ∧ b ≤ x.2)) = true →
          (decide (x.1 ≠ pos ∧ a ≤ x.2)) = true := by
        intro x _ hx
        simp only [decide_eq_true_eq] at hx ⊢
        exact ⟨hx.1, le_trans hab hx.2⟩
      exact_mod_cast List.countP_mono_left this

/-- C3 witness: the amended theorem at a concrete non-degenerate call. -/
theorem generateROCCurve_spec_witness :
    ∃ pts, generateROCCurve ["n", "p"] [0, 1] "p" = .ok pts ∧
      pts.head? = some ⟨0, 0, 1⟩ ∧ pts.getLast? = some ⟨1, 1, 0⟩ ∧
      ((pts.drop 1).dropLast).Chain' (fun p q => q.fpr ≤ p.fpr) := by
  refine ⟨_, rfl, ?_⟩
  exact generateROCCurve_spec ["n", "p"] [0, 1] "p" defaultThresholds _
    defaultThresholds_ascending rfl


/-! ## C5 -/

/-- Unfolding equation of `skel`. -/
theorem skel_unfold (i : String) (ty : ElTag) (st : NodeStatistics)
    (te : Option SplitTest) (ch : Option (Element × Element))
    (alts : List SplitTest) (pc : Option String) (cd : Option ClassDist)
    (ce : Option Bool) :
    skel (.mk i ty st te ch alts pc cd ce) =
      match ch with
      | some (l, r) => .mk i ty ⟨0, 0, []⟩ te (some (skel l, skel r)) alts none none none
      | none => .mk i ty ⟨0, 0, []⟩ te none alts none none none := by
  rcases ch with _ | ⟨l, r⟩ <;> rfl

/-- Unfolding equation of `recursivelyUpdateStatistics`. -/
theorem rus_unfold (env : Env) (i : String) (ty : ElTag)
    (st : NodeStatistics) (te : Option SplitTest)
    (ch : Option (Element × Element)) (alts : List SplitTest)
    (pc : Option String) (cd : Option ClassDist) (ce : Option Bool)
    (S : List Instance) :
    recursivelyUpdateStatistics env (.mk i ty st te ch alts pc cd ce) S =
      match ty with
      | .leaf =>
        .mk i .leaf (calculateStats env S) te ch alts
          (some (majorityClass (calculateStats env S).classDistribution))
          (some (calculateStats env S).classDistribution)
          (some (decide ((calculateStats env S).entropy > 0)))
      | .node =>
        match ch with
        | some (l, r) =>
          .mk i .node (calculateStats env S) te
            (some (recursivelyUpdateStatistics env l
                (splitInstances S (te.getD dummyTest)).1,
              recursivelyUpdateStatistics env r
                (splitInstances S (te.getD dummyTest)).2)) alts pc cd ce
        | none => .mk i .node (calculateStats env S) te none alts pc cd ce := by
  cases ty <;> rcases ch with _ | ⟨l, r⟩ <;> rfl

/-- Refreshing statistics never changes the structural skeleton. -/
theorem skel_refresh (env : Env) :
    ∀ (e : Element) (S : List Instance),
      skel (recursivelyUpdateStatistics env e S) = skel e := by
  intro e
  induction e using Element.childInduction with
  | h id ty st te ch alts pc cd ce ihl ihr =>
    intro S
    cases ty <;> rcases ch with _ | ⟨l, r⟩ <;>
      rw [rus_unfold] <;> simp only [skel_unfold]
    · rw [ihl l r rfl, ihr l r rfl]

/-- A refreshed subtree's statistics and leaf summaries agree everywhere
with the instance subsets assigned by re-splitting. -/
theorem statsFollow_refresh (env : Env) :
    ∀ (e : Element) (S : List Instance),
      StatsFollow env (recursivelyUpdateStatistics env e S) S := by
  intro e
  induction e using Element.childInduction with
  | h id ty st te ch alts pc cd ce ihl ihr =>
    intro S
    cases ty <;> rcases ch with _ | ⟨l, r⟩ <;> rw [rus_unfold] <;>
      unfold StatsFollow
    · exact ⟨rfl, trivial⟩
    · exact ⟨rfl, ihl l r rfl _, ihr l r rfl _⟩
    · refine ⟨rfl, rfl, rfl, rfl⟩
    · refine ⟨rfl, rfl, rfl, rfl⟩

/-- Rewriting at a node with skeleton-equal functions yields skeleton-equal
trees. -/
theorem skel_mapAtNode_congr (i : String) (f g : Element → Element)
    (hfg : ∀ x, skel (f x) = skel (g x)) :
    ∀ r : Element, skel (mapAtNode r i f) = skel (mapAtNode r i g) := by
  intro r
  induction r using Element.childInduction with
  | h id ty st te ch alts pc cd ce ihl ihr =>
    rw [mapAtNode_unfold, mapAtNode_unfold]
    by_cases hid : id = i
    · simp only [if_pos hid]
      exact hfg _
    · simp only [if_neg hid]
      cases ty <;> rcases ch with _ | ⟨l, r⟩
      · rfl
      · simp only
        cases hl : (findNodeById l i).isSome
        · simp only [Bool.false_eq_true, if_false]
          simp only [skel_unfold]
          rw [ihr l r rfl]
        · simp only [if_true]
          simp only [skel_unfold]
          rw [ihl l r rfl]
      · rfl
      · rfl

/-- C5: after a successful `applyDistributionChange(nodeId, newTest)`, the
target node's test equals `newTest` and the whole tree's skeleton (ids, type
tags, tests, children structure, alternative splits) is that of the original
tree with only that test replaced — descendants' tests and children are
unchanged; and each child subtree's statistics — plus `classDistribution`,
`predictedClass` and `canExpand` on leaves — are recomputed from the instance
subsets assigned by re-splitting the node's reaching instances under the new
test (the target's own statistics stay as they were). -/
theorem applyDistributionChange_spec (env : Env) (st : EngineState)
    (nodeId : String) (newTest : SplitTest) (t' : DecisionTree)
    (h : applyDistributionChange env st nodeId newTest = .ok t') :
    ∃ e, findNodeById st.tree.root nodeId = some e ∧ e.typ = .node ∧
      skel t'.root = skel (setTestAt st.tree nodeId newTest).root ∧
      (∀ l r, e.children = some (l, r) →
        findNodeById t'.root nodeId = some
          (.mk e.id .node e.statistics (some newTest)
            (some (recursivelyUpdateStatistics env l
                (splitInstances (getInstancesForNode st nodeId) newTest).1,
              recursivelyUpdateStatistics env r
                (splitInstances (getInstancesForNode st nodeId) newTest).2))
            e.alternativeSplits e.predictedClass e.classDistribution
            e.canExpand) ∧
        StatsFollow env (recursivelyUpdateStatistics env l
            (splitInstances (getInstancesForNode st nodeId) newTest).1)
          (splitInstances (getInstancesForNode st nodeId) newTest).1 ∧
        StatsFollow env (recursivelyUpdateStatistics env r
            (splitInstances (getInstancesForNode st nodeId) newTest).2)
          (splitInstances (getInstancesForNode st nodeId) newTest).2) := by
  unfold applyDistributionChange at h
  rcases hf : findNodeById st.tree.root nodeId with _ | e
  · rw [hf] at h
    exact Except.noConfusion h
  · rw [hf] at h
    simp only at h
    by_cases ht : e.typ = ElTag.node
    · simp only [if_pos ht, Except.ok.injEq] at h
      subst h
      refine ⟨e, rfl, ht, ?_, ?_⟩
      · simp only
        unfold setTestAt
        refine skel_mapAtNode_congr nodeId _ _ ?_ st.tree.root
        intro x
        rcases x with ⟨xi, xty, xst, xte, xch, xalts, xpc, xcd, xce⟩
        simp only
        rcases xch with _ | ⟨l, r⟩
        · simp only [skel_unfold]
        · simp only [skel_unfold, skel_refresh]
      · intro l r hch
        constructor
        · simp only
          have hid : ((fun nd =>
              match nd with
              | Element.mk i ty stm _ ch alts pc cd ce =>
                match ch with
                | some (l, r) =>
                  Element.mk i ty stm (some newTest)
                    (some (recursivelyUpdateStatistics env l
                        (splitInstances (getInstancesForNode st nodeId) newTest).1,
                      recursivelyUpdateStatistics env r
                        (splitInstances (getInstancesForNode st nodeId) newTest).2))
                    alts pc cd ce
                | none => Element.mk i ty stm (some newTest) none alts pc cd ce) e).id
              = e.id := by
            rcases e with ⟨ei, ety, est, ete, ech, ealts, epc, ecd, ece⟩
            rcases ech with _ | ⟨l2, r2⟩ <;> rfl
          have hfm := findNodeById_mapAtNode nodeId (fun nd =>
              match nd with
              | Element.mk i ty stm _ ch alts pc cd ce =>
                match ch with
                | some (l, r) =>
                  Element.mk i ty stm (some newTest)
                    (some (recursivelyUpdateStatistics env l
                        (splitInstances (getInstancesForNode st nodeId) newTest).1,
                      recursivelyUpdateStatistics env r
                        (splitInstances (getInstancesForNode st nodeId) newTest).2))
                    alts pc cd ce
                | none => Element.mk i ty stm (some newTest) none alts pc cd ce)
            st.tree.root e hf hid
          rw [hfm]
          rcases e with ⟨ei, ety, est, ete, ech, ealts, epc, ecd, ece⟩
          simp only [Element.typ] at ht
          subst ht
          simp only [Element.children] at hch
          subst hch
          rfl
        · exact ⟨statsFollow_refresh env l _, statsFollow_refresh env r _⟩
    · simp only [if_neg ht] at h
      exact Except.noConfusion h

/-- C5 witness: the spec applied to a concrete promoted test. -/
theorem applyDistributionChange_spec_witness :
    ∃ t' e, applyDistributionChange qEnv stL "n0" tBA = .ok t' ∧
      findNodeById stL.tree.root "n0" = some e ∧ e.typ = .node ∧
      skel t'.root = skel (setTestAt stL.tree "n0" tBA).root ∧
      (∀ l r, e.children = some (l, r) →
        findNodeById t'.root "n0" = some
          (.mk e.id .node e.statistics (some tBA)
            (some (recursivelyUpdateStatistics qEnv l
                (splitInstances (getInstancesForNode stL "n0") tBA).1,
              recursivelyUpdateStatistics qEnv r
                (splitInstances (getInstancesForNode stL "n0") tBA).2))
            e.alternativeSplits e.predictedClass e.classDistribution
            e.canExpand) ∧
        StatsFollow qEnv (recursivelyUpdateStatistics qEnv l
            (splitInstances (getInstancesForNode stL "n0") tBA).1)
          (splitInstances (getInstancesForNode stL "n0") tBA).1 ∧
        StatsFollow qEnv (recursivelyUpdateStatistics qEnv r
            (splitInstances (getInstancesForNode stL "n0") tBA).2)
          (splitInstances (getInstancesForNode stL "n0") tBA).2) := by
  obtain ⟨e, h1, h2, h3, h4⟩ :=
    applyDistributionChange_spec qEnv stL "n0" tBA _ rfl
  exact ⟨_, e, rfl, h1, h2, h3, h4⟩


/-! ## C7 -/

/-- `bump` on a singleton distribution of the same label. -/
theorem bump_same (c : String) (n : ℕ) : bump [(c, n)] c = [(c, n + 1)] := by
  simp [bump]

/-- The class distribution of a nonempty uniformly-labelled instance list is
a single entry. -/
theorem classDistOf_allSame (c : String) :
    ∀ (S : List Instance), S ≠ [] → (∀ i ∈ S, i.cls.getD "Unknown" = c) →
      classDistOf S = [(c, S.length)] := by
  have aux : ∀ (S : List Instance) (n : ℕ),
      (∀ i ∈ S, i.cls.getD "Unknown" = c) →
      S.foldl (fun d i => bump d (i.cls.getD "Unknown")) [(c, n)] =
        [(c, n + S.length)] := by
    intro S
    induction S with
    | nil => intro n _; simp
    | cons x xs ih =>
      intro n hall
      simp only [List.foldl_cons]
      rw [hall x (by simp), bump_same, ih (n + 1) (fun i hi => hall i (by simp [hi]))]
      simp only [List.length_cons]
      exact congrArg (fun m => [(c, m)]) (by omega)
  intro S hne hall
  unfold classDistOf
  cases S with
  | nil => exact absurd rfl hne
  | cons x xs =>
    simp only [List.foldl_cons, bump]
    rw [hall x (by simp)]
    rw [aux xs 1 (fun i hi => hall i (by simp [hi]))]
    simp only [List.length_cons]
    exact congrArg (fun m => [(c, m)]) (by omega)

/-- The stored entropy of a uniformly-labelled instance list is 0, for any
entropy function that vanishes on one-class distributions (as Shannon entropy
does). -/
theorem calculateStats_entropy_zero (env : Env) (c : String)
    (S : List Instance) (hall : ∀ i ∈ S, i.cls.getD "Unknown" = c)
    (hpure : ∀ c2 n, env.H [(c2, n)] = 0) :
    (calculateStats env S).entropy = 0 := by
  unfold calculateStats
  simp only
  rcases S with _ | ⟨x, xs⟩
  · simp
  · rw [if_pos (by simp)]
    rw [classDistOf_allSame c _ (by simp) hall]
    exact hpure c _

/-- On a uniformly-labelled instance list every TSP/WTSP candidate has zero
gain, so the step function never raises the best gain above 0. -/
theorem tspStep_pure (env : Env) (c : String) (S : List Instance)
    (hall : ∀ i ∈ S, i.cls.getD "Unknown" = c)
    (hpure : ∀ c2 n, env.H [(c2, n)] = 0)
    (pE : ℚ) (hpE : pE = 0) (st : BestState) (hst : st.bestGain ≤ 0)
    (t : SplitTest) : (tspStep env S pE st t).bestGain ≤ 0 := by
  unfold tspStep
  simp only
  have h1 : (calculateStats env (splitInstances S t).1).entropy = 0 :=
    calculateStats_entropy_zero env c _
      (fun i hi => hall i (List.mem_of_mem_filter hi)) hpure
  have h2 : (calculateStats env (splitInstances S t).2).entropy = 0 :=
    calculateStats_entropy_zero env c _
      (fun i hi => hall i (List.mem_of_mem_filter hi)) hpure
  rw [h1, h2, hpE]
  simp only [mul_zero, add_zero, zero_div, sub_zero, zero_sub, neg_zero]
  split
  · exact le_refl 0
  · split
    · exact hst
    · exact hst

/-- `foldl` preserves any invariant of the accumulator preserved by the step
function. -/
theorem foldl_preserve {α β : Type} (P : α → Prop) (f : α → β → α)
    (hstep : ∀ a b, P a → P (f a b)) :
    ∀ (l : List β) (a : α), P a → P (l.foldl f a) := by
  intro l
  induction l with
  | nil => intro a ha; exact ha
  | cons x xs ih => intro a ha; exact ih (f a x) (hstep a x ha)

/-- The TSP scan over a uniformly-labelled list ends with best gain ≤ 0. -/
theorem tspSearch_pure (env : Env) (c : String) (S : List Instance)
    (pE : ℚ) (attrs : List String)
    (hall : ∀ i ∈ S, i.cls.getD "Unknown" = c)
    (hpure : ∀ c2 n, env.H [(c2, n)] = 0) (hpE : pE = 0) :
    (tspSearch env S pE attrs).bestGain ≤ 0 :=
  foldl_preserve (fun st : BestState => st.bestGain ≤ 0) _
    (fun a b ha => foldl_preserve (fun st : BestState => st.bestGain ≤ 0) _
      (fun a2 b2 ha2 => tspStep_pure env c S hall hpure pE hpE a2 ha2 b2)
      _ a ha)
    (pairsOf attrs) initBest (by norm_num [initBest])

/-- The WTSP scan over a uniformly-labelled list ends with best gain ≤ 0. -/
theorem wtspSearch_pure (env : Env) (c : String) (S : List Instance)
    (pE : ℚ) (attrs : List String)
    (hall : ∀ i ∈ S, i.cls.getD "Unknown" = c)
    (hpure : ∀ c2 n, env.H [(c2, n)] = 0) (hpE : pE = 0) :
    (wtspSearch env S pE attrs).bestGain ≤ 0 :=
  foldl_preserve (fun st : BestState => st.bestGain ≤ 0) _
    (fun a b ha => foldl_preserve (fun st : BestState => st.bestGain ≤ 0) _
      (fun a2 b2 ha2 => tspStep_pure env c S hall hpure pE hpE a2 ha2 b2)
      _ a ha)
    (pairsOf attrs) initBest (by norm_num [initBest])

/-- `TSP.buildNode` over a uniformly-labelled (zero-entropy) instance list
always emits the leaf `createLeafFromGroup` would build. -/
theorem buildNodeTSP_pure (env : Env) (cfg : ExperimentConfig) (c : String)
    (S : List Instance) (depth : ℕ) (attrs : List String) (k : ℕ)
    (hall : ∀ i ∈ S, i.cls.getD "Unknown" = c)
    (hpure : ∀ c2 n, env.H [(c2, n)] = 0) :
    buildNodeTSP env cfg S depth attrs k = createLeafFromGroup env k S := by
  rw [buildNodeTSP]
  have hpE : (calculateStats env S).entropy = 0 :=
    calculateStats_entropy_zero env c S hall hpure
  split
  · rfl
  · rcases hbt : (tspSearch env S (calculateStats env S).entropy attrs).bestTest
      with _ | bt
    · rfl
    · simp only
      rw [if_pos (tspSearch_pure env c S _ attrs hall hpure hpE)]

/-- `WTSP.buildNode` over a uniformly-labelled instance list always emits a
leaf. -/
theorem buildNodeWTSP_pure (env : Env) (cfg : ExperimentConfig) (c : String)
    (S : List Instance) (depth : ℕ) (attrs : List String) (k : ℕ)
    (hall : ∀ i ∈ S, i.cls.getD "Unknown" = c)
    (hpure : ∀ c2 n, env.H [(c2, n)] = 0) :
    buildNodeWTSP env cfg S depth attrs k = createLeafFromGroup env k S := by
  rw [buildNodeWTSP]
  have hpE : (calculateStats env S).entropy = 0 :=
    calculateStats_entropy_zero env c S hall hpure
  split
  · rfl
  · rcases hbt : (wtspSearch env S (calculateStats env S).entropy attrs).bestTest
      with _ | bt
    · rfl
    · simp only
      rw [if_pos (wtspSearch_pure env c S _ attrs hall hpure hpE)]

/-- `C45.buildNode` over a uniformly-labelled instance list stops immediately
(at most one class remains) and emits a leaf. -/
theorem buildNodeC45_pure (env : Env) (cfg : ExperimentConfig) (c : String)
    (S : List Instance) (depth : ℕ) (attrs : List String) (k : ℕ)
    (hall : ∀ i ∈ S, i.cls.getD "Unknown" = c) :
    buildNodeC45 env cfg S depth attrs k = createLeafFromGroup env k S := by
  rw [buildNodeC45]
  rw [dif_pos ?_]
  rcases hS : S with _ | ⟨x, xs⟩
  · right; right; right; right
    simp [calculateStats, classDistOf]
  · right; right; right; right
    have : (calculateStats env S).classDistribution = [(c, S.length)] := by
      unfold calculateStats
      simp only
      exact classDistOf_allSame c S (by rw [hS]; simp) hall
    rw [← hS, this]
    simp

/-- C7: `unfoldLeafOnce` on a leaf whose current reaching set is uniformly
labelled (zero entropy, `canExpand = false`) and whose stored fields agree
with that reaching set either fails (the pairwise algorithms' attribute
check) or returns the tree unchanged — the depth-1 rebuild over a pure set is
always a leaf with the selfsame summaries, never a node with an empty-gain
test. -/
theorem unfoldLeafOnce_pure (env : Env) (st : EngineState) (nodeId : String)
    (tag : AlgTag) (k : ℕ) (c : String) (e : Element)
    (hpure : ∀ c2 n, env.H [(c2, n)] = 0)
    (hfind : findNodeById st.tree.root nodeId = some e)
    (hsame : ∀ i ∈ getInstancesForNode st nodeId, i.cls.getD "Unknown" = c)
    (hcons : e = .mk e.id .leaf
        (calculateStats env (getInstancesForNode st nodeId)) none none []
        (some (majorityClass (classDistOf (getInstancesForNode st nodeId))))
        (some (classDistOf (getInstancesForNode st nodeId)))
        (some (decide ((calculateStats env
          (getInstancesForNode st nodeId)).entropy > 0)))) :
    (∃ msg, unfoldLeafOnce env st nodeId tag k = .error msg) ∨
      unfoldLeafOnce env st nodeId tag k = .ok st.tree := by
  obtain ⟨ei, ety, est, ete, ech, ealts, epc, ecd, ece⟩ := e
  simp only [Element.id] at hcons
  injection hcons with h1 h2 h3 h4 h5 h6 h7 h8 h9
  subst h2 h3 h4 h5 h6 h7 h8 h9
  have hty : (Element.mk ei ElTag.leaf
      (calculateStats env (getInstancesForNode st nodeId)) none none []
      (some (majorityClass (classDistOf (getInstancesForNode st nodeId))))
      (some (classDistOf (getInstancesForNode st nodeId)))
      (some (decide ((calculateStats env
        (getInstancesForNode st nodeId)).entropy > 0)))).typ = ElTag.leaf := rfl
  have hfix : assignSpreadKeepId (Element.mk ei ElTag.leaf
      (calculateStats env (getInstancesForNode st nodeId)) none none []
      (some (majorityClass (classDistOf (getInstancesForNode st nodeId))))
      (some (classDistOf (getInstancesForNode st nodeId)))
      (some (decide ((calculateStats env
        (getInstancesForNode st nodeId)).entropy > 0))))
      (createLeafFromGroup env k (getInstancesForNode st nodeId)).1 =
      Element.mk ei ElTag.leaf
      (calculateStats env (getInstancesForNode st nodeId)) none none []
      (some (majorityClass (classDistOf (getInstancesForNode st nodeId))))
      (some (classDistOf (getInstancesForNode st nodeId)))
      (some (decide ((calculateStats env
        (getInstancesForNode st nodeId)).entropy > 0))) := rfl
  unfold unfoldLeafOnce
  rw [hfind]
  simp only [hty, if_pos]
  cases tag with
  | c45 =>
    right
    simp only [runAlgorithm]
    have hroot : (buildTreeC45 env (getInstancesForNode st nodeId)
        { st.tree.config with maxDepth := 1 } k).1.root =
        (createLeafFromGroup env k (getInstancesForNode st nodeId)).1 := by
      unfold buildTreeC45
      simp only
      rw [buildNodeC45_pure env _ c _ _ _ _ hsame]
    rw [hroot]
    rw [mapAtNode_eq_of_found _ _ _ _ hfind]
    rw [mapAtNode_fix _ _ _ _ hfind hfix]
  | tsp =>
    simp only [runAlgorithm]
    unfold buildTreeTSP
    by_cases hlen : (numericAttrs (getInstancesForNode st nodeId)
        { st.tree.config with maxDepth := 1 }).length < 2
    · left
      rw [if_pos hlen]
      exact ⟨_, rfl⟩
    · right
      rw [if_neg hlen]
      simp only
      rw [buildNodeTSP_pure env _ c _ _ _ _ hsame hpure]
      rw [mapAtNode_eq_of_found _ _ _ _ hfind]
      rw [mapAtNode_fix _ _ _ _ hfind hfix]
  | wtsp =>
    simp only [runAlgorithm]
    unfold buildTreeWTSP
    by_cases hlen : (numericAttrs (getInstancesForNode st nodeId)
        { st.tree.config with maxDepth := 1 }).length < 2
    · left
      rw [if_pos hlen]
      exact ⟨_, rfl⟩
    · right
      rw [if_neg hlen]
      simp only
      rw [buildNodeWTSP_pure env _ c _ _ _ _ hsame hpure]
      rw [mapAtNode_eq_of_found _ _ _ _ hfind]
      rw [mapAtNode_fix _ _ _ _ hfind hfix]

/-- C7 witness: unfolding the pure leaf `l1` of the concrete tree with the
TSP tag leaves the tree unchanged (or would fail; here it succeeds
unchanged). -/
theorem unfoldLeafOnce_pure_witness :
    (∀ c2 n, qEnv.H [(c2, n)] = 0) ∧
    ((∃ msg, unfoldLeafOnce qEnv stL "l1" .tsp 0 = .error msg) ∨
      unfoldLeafOnce qEnv stL "l1" .tsp 0 = .ok stL.tree) := by
  have hpure : ∀ c2 n, qEnv.H [(c2, n)] = 0 := by
    intro c2 n
    simp [qEnv, distinctH]
  have hS : getInstancesForNode stL "l1" = [nIx] := rfl
  refine ⟨hpure,
    unfoldLeafOnce_pure qEnv stL "l1" .tsp 0 "x" lfX hpure rfl ?_ ?_⟩
  · intro i hi
    rw [hS] at hi
    simp only [List.mem_singleton] at hi
    subst hi
    rfl
  · rfl


/-! ## C8 -/

/-- Membership in the first-occurrence dedup fold. -/
theorem firstDedup_mem {α : Type} [DecidableEq α] :
    ∀ (l : List α) (acc : List α) (x : α),
      (x ∈ l.foldl (fun acc y => if y ∈ acc then acc else acc ++ [y]) acc) ↔
        (x ∈ acc ∨ x ∈ l) := by
  intro l
  induction l with
  | nil => intro acc x; simp
  | cons y ys ih =>
    intro acc x
    simp only [List.foldl_cons]
    by_cases hy : y ∈ acc
    · rw [if_pos hy, ih]
      constructor
      · rintro (h | h)
        · exact Or.inl h
        · exact Or.inr (by simp [h])
      · rintro (h | h)
        · exact Or.inl h
        · rcases List.mem_cons.mp h with h | h
          · exact Or.inl (h ▸ hy)
          · exact Or.inr h
    · rw [if_neg hy, ih]
      constructor
      · rintro (h | h)
        · rcases List.mem_append.mp h with h | h
          · exact Or.inl h
          · exact Or.inr (by simp at h; simp [h])
        · exact Or.inr (by simp [h])
      · rintro (h | h)
        · exact Or.inl (List.mem_append.mpr (Or.inl h))
        · rcases List.mem_cons.mp h with h | h
          · exact Or.inl (by simp [h])
          · exact Or.inr h

/-- The first-occurrence dedup fold yields a duplicate-free list. -/
theorem firstDedup_nodup {α : Type} [DecidableEq α] :
    ∀ (l : List α) (acc : List α), acc.Nodup →
      (l.foldl (fun acc y => if y ∈ acc then acc else acc ++ [y]) acc).Nodup := by
  intro l
  induction l with
  | nil => intro acc h; exact h
  | cons y ys ih =>
    intro acc hacc
    simp only [List.foldl_cons]
    by_cases hy : y ∈ acc
    · rw [if_pos hy]; exact ih acc hacc
    · rw [if_neg hy]
      refine ih _ ?_
      simp [List.nodup_append, hacc, hy]

/-- Summing a pointwise-equal-except-one-bumped function over a
duplicate-free list adds exactly one. -/
theorem sum_map_update {α : Type} [DecidableEq α] :
    ∀ (l : List α) (b : α) (f g : α → ℕ),
      (∀ x ∈ l, x ≠ b → g x = f x) → g b = f b + 1 → l.Nodup → b ∈ l →
      (l.map g).sum = (l.map f).sum + 1 := by
  intro l
  induction l with
  | nil => intro b f g _ _ _ hmem; cases hmem
  | cons x xs ih =>
    intro b f g hg hb hnd hmem
    simp only [List.map_cons, List.sum_cons]
    rcases List.mem_cons.mp hmem with hxb | hbxs
    · subst hxb
      have hxs : xs.map g = xs.map f := by
        refine List.map_congr_left ?_
        intro a ha
        exact hg a (by simp [ha]) (fun hax => (List.nodup_cons.mp hnd).1 (hax ▸ ha))
      rw [hb, hxs]
      omega
    · have hxb : x ≠ b := fun hxb => (List.nodup_cons.mp hnd).1 (hxb ▸ hbxs)
      rw [hg x (by simp) hxb,
        ih b f g (fun a ha hab => hg a (by simp [ha]) hab) hb
          (List.nodup_cons.mp hnd).2 hbxs]
      omega

/-- One `matrix[a][p]++` adds exactly 1 to the total cell sum. -/
theorem cellSum_incr (labels : List String) (m : String → String → ℕ)
    (a p : String) (hnd : labels.Nodup) (ha : a ∈ labels) (hp : p ∈ labels) :
    cellSum ⟨incrCell m a p, labels⟩ = cellSum ⟨m, labels⟩ + 1 := by
  unfold cellSum incrCell
  simp only
  refine sum_map_update labels a
    (fun x => (labels.map (fun y => m x y)).sum)
    (fun x => (labels.map (fun y =>
      if x = a ∧ y = p then m x y + 1 else m x y)).sum) ?_ ?_ hnd ha
  · intro x _ hxa
    refine congrArg List.sum (List.map_congr_left ?_)
    intro y _
    rw [if_neg (fun hc => hxa hc.1)]
  · refine sum_map_update labels p (fun y => m a y)
      (fun y => if a = a ∧ y = p then m a y + 1 else m a y) ?_ ?_ hnd hp
    · intro y _ hyp
      beta_reduce
      rw [if_neg (fun hc => hyp hc.2)]
    · beta_reduce
      rw [if_pos ⟨rfl, rfl⟩]

/-- One `matrix[a][p]++` adds 1 to the diagonal sum exactly when `a = p`. -/
theorem diagSum_incr (labels : List String) (m : String → String → ℕ)
    (a p : String) (hnd : labels.Nodup) (ha : a ∈ labels) :
    diagSum ⟨incrCell m a p, labels⟩ =
      diagSum ⟨m, labels⟩ + (if a = p then 1 else 0) := by
  unfold diagSum incrCell
  simp only
  by_cases hap : a = p
  · subst hap
    rw [if_pos rfl]
    refine sum_map_update labels a (fun c => m c c)
      (fun c => if c = a ∧ c = a then m c c + 1 else m c c) ?_ ?_ hnd ha
    · intro x _ hxa
      beta_reduce
      rw [if_neg (fun hc => hxa hc.1)]
    · beta_reduce
      rw [if_pos ⟨rfl, rfl⟩]
  · rw [if_neg hap]
    rw [add_zero]
    refine congrArg List.sum (List.map_congr_left ?_)
    intro c _
    rw [if_neg (fun hc => hap (hc.1.symm.trans hc.2))]

/-- Accumulating the `(actual, predicted)` pairs adds the pair count to the
total cell sum and the match count to the diagonal. -/
theorem matrix_fold_sums (labels : List String) (hnd : labels.Nodup) :
    ∀ (pairs : List (String × String)) (m : String → String → ℕ),
      (∀ ap ∈ pairs, ap.1 ∈ labels ∧ ap.2 ∈ labels) →
      cellSum ⟨pairs.foldl (fun m2 ap => incrCell m2 ap.1 ap.2) m, labels⟩ =
        cellSum ⟨m, labels⟩ + pairs.length ∧
      diagSum ⟨pairs.foldl (fun m2 ap => incrCell m2 ap.1 ap.2) m, labels⟩ =
        diagSum ⟨m, labels⟩ + pairs.countP (fun ap => ap.1 = ap.2) := by
  intro pairs
  induction pairs with
  | nil => intro m _; simp
  | cons ap aps ih =>
    intro m hmem
    simp only [List.foldl_cons]
    obtain ⟨h1, h2⟩ := ih (incrCell m ap.1 ap.2)
      (fun x hx => hmem x (by simp [hx]))
    constructor
    · rw [h1, cellSum_incr labels m ap.1 ap.2 hnd
        (hmem ap (by simp)).1 (hmem ap (by simp)).2]
      simp only [List.length_cons]
      omega
    · rw [h2, diagSum_incr labels m ap.1 ap.2 hnd (hmem ap (by simp)).1]
      rw [List.countP_cons]
      by_cases hap : ap.1 = ap.2
      · simp [hap]
        omega
      · simp [hap]

/-- `charListLe` is total. -/
theorem charListLe_total : ∀ as bs : List Char,
    charListLe as bs = true ∨ charListLe bs as = true := by
  intro as
  induction as with
  | nil => intro bs; left; cases bs <;> rfl
  | cons a as ih =>
    intro bs
    cases bs with
    | nil => right; rfl
    | cons b bs' =>
      rcases Nat.lt_trichotomy a.toNat b.toNat with h | h | h
      · left; simp [charListLe, h]
      · rcases ih bs' with h2 | h2
        · left; simp [charListLe, h, h2]
        · right; simp [charListLe, h.symm, h2]
      · right; simp [charListLe, h]

/-- `charListLe` is transitive. -/
theorem charListLe_trans : ∀ as bs cs : List Char,
    charListLe as bs = true → charListLe bs cs = true →
    charListLe as cs = true := by
  intro as
  induction as with
  | nil => intro bs cs _ _; cases cs <;> rfl
  | cons a as ih =>
    intro bs cs h1 h2
    cases bs with
    | nil => simp [charListLe] at h1
    | cons b bs' =>
      cases cs with
      | nil => simp [charListLe] at h2
      | cons c cs' =>
        simp only [charListLe] at h1 h2 ⊢
        split_ifs at h1 with hab hba
        · split_ifs at h2 with hbc hcb
          · rw [if_pos (by omega : a.toNat < c.toNat)]
          · rw [if_pos (by omega : a.toNat < c.toNat)]
        · split_ifs at h2 with hbc hcb
          · rw [if_pos (by omega : a.toNat < c.toNat)]
          · rw [if_neg (by omega : ¬ a.toNat < c.toNat),
              if_neg (by omega : ¬ c.toNat < a.toNat)]
            exact ih bs' cs' h1 h2

/-- `strLe` is total. -/
theorem strLe_total (a b : String) :
    strLe a b = true ∨ strLe b a = true := charListLe_total a.data b.data

/-- `strLe` is transitive. -/
theorem strLe_trans (a b c : String) :
    strLe a b = true → strLe b c = true → strLe a c = true :=
  charListLe_trans a.data b.data c.data

/-- C8: `createConfusionMatrix` fails exactly when the two arrays differ in
length; on success `classLabels` is the sorted, duplicate-free set of labels
observed in either array, the sum of all cells equals the number of
predictions, and the diagonal sum counts the indices where actual and
predicted agree. -/
theorem createConfusionMatrix_spec (actual predicted : List String) :
    ((createConfusionMatrix actual predicted).isOk ↔
      actual.length = predicted.length) ∧
    (∀ cm, createConfusionMatrix actual predicted = .ok cm →
      cm.classLabels.Sorted (fun a b => strLe a b = true) ∧
      (∀ s, s ∈ cm.classLabels ↔ (s ∈ actual ∨ s ∈ predicted)) ∧
      cellSum cm = actual.length ∧
      diagSum cm = (actual.zip predicted).countP (fun ap => ap.1 = ap.2)) := by
  unfold createConfusionMatrix
  by_cases hlen : actual.length = predicted.length
  · rw [if_neg (fun h => h hlen)]
    constructor
    · exact ⟨fun _ => hlen, fun _ => rfl⟩
    · intro cm hcm
      injection hcm with hcm
      subst hcm
      have hnd : ((firstDedup (actual ++ predicted)).insertionSort
          (fun a b => strLe a b = true)).Nodup := by
        refine (List.perm_insertionSort _ _).nodup_iff.mpr ?_
        exact firstDedup_nodup _ [] List.nodup_nil
      have hmem : ∀ s, s ∈ (firstDedup (actual ++ predicted)).insertionSort
          (fun a b => strLe a b = true) ↔ (s ∈ actual ∨ s ∈ predicted) := by
        intro s
        rw [(List.perm_insertionSort _ _).mem_iff]
        unfold firstDedup
        rw [firstDedup_mem]
        simp
      have hmemzip : ∀ ap ∈ actual.zip predicted,
          ap.1 ∈ (firstDedup (actual ++ predicted)).insertionSort
            (fun a b => strLe a b = true) ∧
          ap.2 ∈ (firstDedup (actual ++ predicted)).insertionSort
            (fun a b => strLe a b = true) := by
        intro ap hap
        obtain ⟨ha, hp⟩ := List.of_mem_zip hap
        exact ⟨(hmem ap.1).mpr (Or.inl ha), (hmem ap.2).mpr (Or.inr hp)⟩
      obtain ⟨h1, h2⟩ := matrix_fold_sums _ hnd (actual.zip predicted)
        (fun _ _ => 0) hmemzip
      refine ⟨@List.sorted_insertionSort String (fun a b => strLe a b = true)
        _ ⟨strLe_total⟩ ⟨strLe_trans⟩ _, hmem, ?_, ?_⟩
      · rw [h1]
        simp only [cellSum]
        simp [List.length_zip, hlen]
      · rw [h2]
        simp [diagSum]
  · rw [if_pos hlen]
    constructor
    · refine ⟨fun h => ?_, fun h => absurd h hlen⟩
      exact Bool.noConfusion h
    · intro cm hcm
      exact Except.noConfusion hcm

/-- C8 witness: the spec example `actual = [a,b,a]`, `predicted = [a,a,b]`. -/
theorem createConfusionMatrix_spec_witness :
    ((createConfusionMatrix ["a", "b", "a"] ["a", "a", "b"]).isOk ↔
      (3 : ℕ) = 3) ∧
    ∃ cm, createConfusionMatrix ["a", "b", "a"] ["a", "a", "b"] = .ok cm ∧
      cm.classLabels.Sorted (fun a b => strLe a b = true) ∧
      (∀ s, s ∈ cm.classLabels ↔ (s ∈ ["a", "b", "a"] ∨ s ∈ ["a", "a", "b"])) ∧
      cellSum cm = 3 ∧ diagSum cm = 1 := by
  obtain ⟨h1, h2⟩ := createConfusionMatrix_spec ["a", "b", "a"] ["a", "a", "b"]
  refine ⟨by simpa using h1, ?_⟩
  have hok : ∃ cm, createConfusionMatrix ["a", "b", "a"] ["a", "a", "b"] = .ok cm :=
    ⟨_, rfl⟩
  obtain ⟨cm, hcm⟩ := hok
  obtain ⟨hs, hm, hc, hd⟩ := h2 cm hcm
  refine ⟨cm, hcm, hs, hm, by simpa using hc, ?_⟩
  rw [hd]
  decide


/-- C10: `evaluateTree` attaches an ROC curve to its result exactly when two
class labels were observed among the recorded predictions, and that curve is
`generateROCCurve` applied to the recorded actual labels and to hard scores
that grade each prediction `1` iff its predicted label equals
`classLabels[1]`, which is also the positive class; every score is `0` or
`1`. -/
theorem evaluateTree_roc_spec (st : EngineState) (insts : List Instance)
    (r : EvaluationResult) (h : evaluateTree st insts = .ok r) :
    (r.rocCurve.isSome ↔ r.confusionMatrix.classLabels.length = 2) ∧
    (∀ curve, r.rocCurve = some curve →
      ∃ h2 : r.confusionMatrix.classLabels.length = 2,
        generateROCCurve
          ((recordedPredictions st.tree.root insts).map Prod.fst)
          ((recordedPredictions st.tree.root insts).map
            (fun p => if p.2 = r.confusionMatrix.classLabels[1] then (1 : ℚ)
              else 0))
          (r.confusionMatrix.classLabels[1]) = .ok curve ∧
        ∀ q ∈ (recordedPredictions st.tree.root insts).map
            (fun p => if p.2 = r.confusionMatrix.classLabels[1] then (1 : ℚ)
              else 0), q = 0 ∨ q = 1) := by
  simp only [evaluateTree] at h
  rcases hcm : createConfusionMatrix
      ((recordedPredictions st.tree.root insts).map Prod.fst)
      ((recordedPredictions st.tree.root insts).map Prod.snd) with _ | cm
  · rw [hcm] at h
    exact Except.noConfusion h
  · rw [hcm] at h
    simp only at h
    by_cases h2 : cm.classLabels.length = 2
    · rw [dif_pos h2] at h
      rcases hroc : generateROCCurve
          ((recordedPredictions st.tree.root insts).map Prod.fst)
          ((recordedPredictions st.tree.root insts).map
            (fun p => if p.2 = cm.classLabels[1] then (1 : ℚ) else 0))
          (cm.classLabels[1]) with _ | curve
      · rw [hroc] at h
        exact Except.noConfusion h
      · rw [hroc] at h
        simp only [Except.ok.injEq] at h
        subst h
        refine ⟨by simp [h2], ?_⟩
        intro curve2 hc2
        simp only [Option.some.injEq] at hc2
        subst hc2
        exact ⟨h2, hroc, by
          intro q hq
          simp only [List.mem_map] at hq
          obtain ⟨p, _, hp⟩ := hq
          subst hp
          split
          · exact Or.inr rfl
          · exact Or.inl rfl⟩
    · rw [dif_neg h2] at h
      simp only [Except.ok.injEq] at h
      subst h
      refine ⟨by simp [h2], ?_⟩
      intro curve hc
      exact Option.noConfusion hc

/-- C10 witness: evaluating the two-class concrete tree on one instance of
each class succeeds and satisfies the ROC-attachment property. -/
theorem evaluateTree_roc_spec_witness :
    ∃ r, evaluateTree stL [nIx, nIy] = .ok r ∧
      ((r.rocCurve.isSome ↔ r.confusionMatrix.classLabels.length = 2) ∧
       (∀ curve, r.rocCurve = some curve →
         ∃ h2 : r.confusionMatrix.classLabels.length = 2,
           generateROCCurve
             ((recordedPredictions stL.tree.root [nIx, nIy]).map Prod.fst)
             ((recordedPredictions stL.tree.root [nIx, nIy]).map
               (fun p => if p.2 = r.confusionMatrix.classLabels[1] then (1 : ℚ)
                 else 0))
             (r.confusionMatrix.classLabels[1]) = .ok curve ∧
           ∀ q ∈ (recordedPredictions stL.tree.root [nIx, nIy]).map
               (fun p => if p.2 = r.confusionMatrix.classLabels[1] then (1 : ℚ)
                 else 0), q = 0 ∨ q = 1)) := by
  have hok : ∃ r, evaluateTree stL [nIx, nIy] = .ok r := ⟨_, rfl⟩
  obtain ⟨r, hr⟩ := hok
  exact ⟨r, hr, evaluateTree_roc_spec stL [nIx, nIy] r hr⟩


/-! ## C4: the built-tree invariants -/

/-- Filtering by a predicate and by its negation partitions a list's length. -/
theorem length_filter_partition {α : Type} (p : α → Bool) :
    ∀ l : List α,
      (l.filter p).length + (l.filter (fun a => !p a)).length = l.length := by
  intro l
  induction l with
  | nil => rfl
  | cons x xs ih =>
    cases hx : p x <;> simp [List.filter_cons, hx] <;> omega

/-- `splitInstances` partitions its input's length. -/
theorem splitInstances_length (S : List Instance) (t : SplitTest) :
    (splitInstances S t).1.length + (splitInstances S t).2.length =
      S.length :=
  length_filter_partition (fun i => evaluate i t) S

/-- `totalsOk` unfolded at an internal node. -/
theorem totalsOk_node (i : String) (st : NodeStatistics)
    (te : Option SplitTest) (l r : Element) (alts : List SplitTest)
    (pc : Option String) (cd : Option ClassDist) (ce : Option Bool) :
    totalsOk (.mk i .node st te (some (l, r)) alts pc cd ce) =
      (decide (st.totalInstances =
        l.statistics.totalInstances + r.statistics.totalInstances) &&
       totalsOk l && totalsOk r) := rfl

/-- `totalsOk` holds at any leaf-tagged element. -/
theorem totalsOk_leaf (i : String) (st : NodeStatistics)
    (te : Option SplitTest) (ch : Option (Element × Element))
    (alts : List SplitTest) (pc : Option String) (cd : Option ClassDist)
    (ce : Option Bool) :
    totalsOk (.mk i .leaf st te ch alts pc cd ce) = true := by
  rcases ch with _ | ⟨l, r⟩ <;> rfl

/-- `evalSplitOk` unfolded at an internal node. -/
theorem evalSplitOk_node (env : Env) (i : String) (st : NodeStatistics)
    (te : Option SplitTest) (l r : Element) (alts : List SplitTest)
    (pc : Option String) (cd : Option ClassDist) (ce : Option Bool)
    (S : List Instance) :
    evalSplitOk env (.mk i .node st te (some (l, r)) alts pc cd ce) S =
      (decide (l.statistics =
        calculateStats env (splitInstances S (te.getD dummyTest)).1) &&
       decide (r.statistics =
        calculateStats env (splitInstances S (te.getD dummyTest)).2) &&
       evalSplitOk env l (splitInstances S (te.getD dummyTest)).1 &&
       evalSplitOk env r (splitInstances S (te.getD dummyTest)).2) := rfl

/-- `evalSplitOk` holds at any leaf-tagged element. -/
theorem evalSplitOk_leaf (env : Env) (i : String) (st : NodeStatistics)
    (te : Option SplitTest) (ch : Option (Element × Element))
    (alts : List SplitTest) (pc : Option String) (cd : Option ClassDist)
    (ce : Option Bool) (S : List Instance) :
    evalSplitOk env (.mk i .leaf st te ch alts pc cd ce) S = true := by
  rcases ch with _ | ⟨l, r⟩ <;> rfl

/-- Both invariants hold at a freshly created leaf. -/
theorem totalsOk_createLeaf (env : Env) (k : ℕ) (insts : List Instance) :
    totalsOk (createLeafFromGroup env k insts).1 = true := rfl

/-- `evalSplitOk` holds at a freshly created leaf. -/
theorem evalSplitOk_createLeaf (env : Env) (k : ℕ) (insts : List Instance)
    (S : List Instance) :
    evalSplitOk env (createLeafFromGroup env k insts).1 S = true := rfl

/-- `calculateStats` records the subset's size. -/
theorem calculateStats_total (env : Env) (S : List Instance) :
    (calculateStats env S).totalInstances = S.length := rfl

/-- A `tspStep` either adopts the candidate (with its exact `splitInstances`
partition) or keeps the running best test and splits. -/
theorem tspStep_shape (env : Env) (S : List Instance) (pE : ℚ)
    (st : BestState) (t0 : SplitTest) :
    ((tspStep env S pE st t0).bestTest = some t0 ∧
     (tspStep env S pE st t0).bestSplits = splitInstances S t0) ∨
    ((tspStep env S pE st t0).bestTest = st.bestTest ∧
     (tspStep env S pE st t0).bestSplits = st.bestSplits) := by
  simp only [tspStep]
  split_ifs with h1 h2
  · exact Or.inl ⟨rfl, rfl⟩
  · exact Or.inr ⟨rfl, rfl⟩
  · exact Or.inr ⟨rfl, rfl⟩

/-- `tspStep` preserves "the best splits are the `splitInstances` of the best
test". -/
theorem tspStep_bestSplits (env : Env) (S : List Instance) (pE : ℚ)
    (st : BestState) (t0 : SplitTest)
    (h : ∀ t, st.bestTest = some t → st.bestSplits = splitInstances S t) :
    ∀ t, (tspStep env S pE st t0).bestTest = some t →
      (tspStep env S pE st t0).bestSplits = splitInstances S t := by
  intro t ht
  rcases tspStep_shape env S pE st t0 with ⟨h1, h2⟩ | ⟨h1, h2⟩
  · rw [h1] at ht
    injection ht with ht
    rw [h2, ht]
  · rw [h2]
    exact h t (h1 ▸ ht)

/-- The TSP scan's final best splits are the `splitInstances` partition of its
final best test. -/
theorem tspSearch_bestSplits (env : Env) (S : List Instance) (pE : ℚ)
    (attrs : List String) :
    ∀ t, (tspSearch env S pE attrs).bestTest = some t →
      (tspSearch env S pE attrs).bestSplits = splitInstances S t :=
  foldl_preserve
    (fun st : BestState =>
      ∀ t, st.bestTest = some t → st.bestSplits = splitInstances S t) _
    (fun a b ha => foldl_preserve
      (fun st : BestState =>
        ∀ t, st.bestTest = some t → st.bestSplits = splitInstances S t) _
      (fun a2 b2 ha2 => tspStep_bestSplits env S pE a2 b2 ha2) _ a ha)
    (pairsOf attrs) initBest (fun t ht => by simp [initBest] at ht)

/-- The WTSP scan's final best splits are the `splitInstances` partition of
its final best test. -/
theorem wtspSearch_bestSplits (env : Env) (S : List Instance) (pE : ℚ)
    (attrs : List String) :
    ∀ t, (wtspSearch env S pE attrs).bestTest = some t →
      (wtspSearch env S pE attrs).bestSplits = splitInstances S t :=
  foldl_preserve
    (fun st : BestState =>
      ∀ t, st.bestTest = some t → st.bestSplits = splitInstances S t) _
    (fun a b ha => foldl_preserve
      (fun st : BestState =>
        ∀ t, st.bestTest = some t → st.bestSplits = splitInstances S t) _
      (fun a2 b2 ha2 => tspStep_bestSplits env S pE a2 b2 ha2) _ a ha)
    (pairsOf attrs) initBest (fun t ht => by simp [initBest] at ht)

/-- Every `buildNodeTSP` result carries the statistics of its input subset. -/
theorem buildNodeTSP_statistics (env : Env) (cfg : ExperimentConfig)
    (insts : List Instance) (depth : ℕ) (attrs : List String) (k : ℕ) :
    (buildNodeTSP env cfg insts depth attrs k).1.statistics =
      calculateStats env insts := by
  rw [buildNodeTSP]
  split
  · rfl
  · rcases hbt : (tspSearch env insts (calculateStats env insts).entropy
        attrs).bestTest with _ | bt
    · rfl
    · simp only
      split
      · rfl
      · rfl

/-- Every `buildNodeWTSP` result carries the statistics of its input subset. -/
theorem buildNodeWTSP_statistics (env : Env) (cfg : ExperimentConfig)
    (insts : List Instance) (depth : ℕ) (attrs : List String) (k : ℕ) :
    (buildNodeWTSP env cfg insts depth attrs k).1.statistics =
      calculateStats env insts := by
  rw [buildNodeWTSP]
  split
  · rfl
  · rcases hbt : (wtspSearch env insts (calculateStats env insts).entropy
        attrs).bestTest with _ | bt
    · rfl
    · simp only
      split
      · rfl
      · rfl

/-- Every `buildNodeC45` result carries the statistics of its input subset. -/
theorem buildNodeC45_statistics (env : Env) (cfg : ExperimentConfig)
    (insts : List Instance) (depth : ℕ) (attrs : List String) (k : ℕ) :
    (buildNodeC45 env cfg insts depth attrs k).1.statistics =
      calculateStats env insts := by
  rw [buildNodeC45]
  split
  · rfl
  · rcases hbt : (c45Search env insts (calculateStats env insts).entropy
        attrs).bestTest with _ | bt
    · rfl
    · simp only
      split
      · rfl
      · rfl

/-- `foldl` preserves an invariant preserved by the step function on the
list's members. -/
theorem foldl_preserve_mem {α β : Type} (P : α → Prop) (f : α → β → α) :
    ∀ l : List β, (∀ a b, b ∈ l → P a → P (f a b)) →
      ∀ a, P a → P (l.foldl f a) := by
  intro l
  induction l with
  | nil => exact fun _ a ha => ha
  | cons x xs ih =>
    intro hstep a ha
    exact ih
      (fun a2 b2 hb2 ha2 => hstep a2 b2 (List.mem_cons_of_mem x hb2) ha2)
      (f a x) (hstep a x (List.mem_cons_self x xs) ha)

/-- The partition property only reads `bestSplits`. -/
theorem splitsPartition_congr (S : List Instance) {st st' : BestState}
    (h : st'.bestSplits = st.bestSplits) (hp : SplitsPartition S st) :
    SplitsPartition S st' := by
  unfold SplitsPartition at hp ⊢
  rw [h]
  exact hp

/-- A `c45NumStep` either keeps the best test and splits, or installs the two
threshold filters as the best splits. -/
theorem c45NumStep_shape (env : Env) (S : List Instance) (pE : ℚ)
    (a : String) (st : BestState) (thr : ℚ) :
    ((c45NumStep env S pE a st thr).bestTest = st.bestTest ∧
     (c45NumStep env S pE a st thr).bestSplits = st.bestSplits) ∨
    ((c45NumStep env S pE a st thr).bestSplits =
      (S.filter (fun i => match toNum (lookupVal i a) with
         | some q => decide (q ≤ thr) | none => false),
       S.filter (fun i => match toNum (lookupVal i a) with
         | some q => decide (q > thr) | none => false))) := by
  simp only [c45NumStep]
  split_ifs <;> first
  | exact Or.inl ⟨rfl, rfl⟩
  | exact Or.inr rfl

/-- A `c45CatStep` either keeps the best test and splits, or installs the
equality/inequality filters as the best splits. -/
theorem c45CatStep_shape (env : Env) (S : List Instance) (pE : ℚ)
    (a : String) (st : BestState) (v : JSVal) :
    ((c45CatStep env S pE a st v).bestTest = st.bestTest ∧
     (c45CatStep env S pE a st v).bestSplits = st.bestSplits) ∨
    ((c45CatStep env S pE a st v).bestSplits =
      (S.filter (fun i => lookupVal i a = v),
       S.filter (fun i => lookupVal i a ≠ v))) := by
  simp only [c45CatStep]
  split_ifs <;> first
  | exact Or.inl ⟨rfl, rfl⟩
  | exact Or.inr rfl

/-- `c45NumStep` preserves the partition invariant when the attribute's values
all coerce to numbers on `S`. -/
theorem c45NumStep_inv (env : Env) (S : List Instance) (pE : ℚ) (a : String)
    (hnum : ∀ i ∈ S, (toNum (lookupVal i a)).isSome = true)
    (st : BestState) (thr : ℚ)
    (h : ∀ t, st.bestTest = some t → SplitsPartition S st) :
    ∀ t, (c45NumStep env S pE a st thr).bestTest = some t →
      SplitsPartition S (c45NumStep env S pE a st thr) := by
  intro t ht
  rcases c45NumStep_shape env S pE a st thr with ⟨h1, h2⟩ | h2
  · exact splitsPartition_congr S h2 (h t (h1 ▸ ht))
  · have hfq : S.filter (fun i => match toNum (lookupVal i a) with
        | some q => decide (q > thr) | none => false) =
        S.filter (fun i => !(match toNum (lookupVal i a) with
          | some q => decide (q ≤ thr) | none => false)) := by
      refine List.filter_congr ?_
      intro i hi
      beta_reduce
      rcases hx : toNum (lookupVal i a) with _ | x
      · have hin := hnum i hi
        rw [hx] at hin
        simp at hin
      · show decide (x > thr) = !decide (x ≤ thr)
        by_cases hle : x ≤ thr
        · simp [hle, not_lt.mpr hle]
        · simp [hle, not_le.mp hle]
    unfold SplitsPartition
    rw [h2]
    refine ⟨?_, ?_, ?_⟩
    · show (S.filter _).length + (S.filter _).length = S.length
      rw [hfq]
      exact length_filter_partition _ S
    · exact fun i hi => List.mem_of_mem_filter hi
    · exact fun i hi => List.mem_of_mem_filter hi

/-- `c45CatStep` preserves the partition invariant. -/
theorem c45CatStep_inv (env : Env) (S : List Instance) (pE : ℚ) (a : String)
    (st : BestState) (v : JSVal)
    (h : ∀ t, st.bestTest = some t → SplitsPartition S st) :
    ∀ t, (c45CatStep env S pE a st v).bestTest = some t →
      SplitsPartition S (c45CatStep env S pE a st v) := by
  intro t ht
  rcases c45CatStep_shape env S pE a st v with ⟨h1, h2⟩ | h2
  · exact splitsPartition_congr S h2 (h t (h1 ▸ ht))
  · have hfq : S.filter (fun i => lookupVal i a ≠ v) =
        S.filter (fun i => !(decide (lookupVal i a = v))) := by
      refine List.filter_congr ?_
      intro i _
      exact decide_not
    unfold SplitsPartition
    rw [h2]
    refine ⟨?_, ?_, ?_⟩
    · show (S.filter _).length + (S.filter _).length = S.length
      rw [hfq]
      exact length_filter_partition _ S
    · exact fun i hi => List.mem_of_mem_filter hi
    · exact fun i hi => List.mem_of_mem_filter hi

/-- `c45AttrStep` preserves the partition invariant when the attribute's
values all coerce to numbers on `S` (only used by the numeric branch). -/
theorem c45AttrStep_inv (env : Env) (S : List Instance) (pE : ℚ)
    (st : BestState) (a : String)
    (hnum : ∀ i ∈ S, (toNum (lookupVal i a)).isSome = true)
    (h : ∀ t, st.bestTest = some t → SplitsPartition S st) :
    ∀ t, (c45AttrStep env S pE st a).bestTest = some t →
      SplitsPartition S (c45AttrStep env S pE st a) := by
  simp only [c45AttrStep]
  rcases hv : S.map (fun i => lookupVal i a) with _ | ⟨v0, vs⟩
  · exact h
  · rcases v0 with q | s | _
    · exact foldl_preserve
        (fun st : BestState => ∀ t, st.bestTest = some t → SplitsPartition S st)
        (c45NumStep env S pE a)
        (fun a2 b2 ha2 => c45NumStep_inv env S pE a hnum a2 b2 ha2) _ st h
    · exact foldl_preserve
        (fun st : BestState => ∀ t, st.bestTest = some t → SplitsPartition S st)
        (c45CatStep env S pE a)
        (fun a2 b2 ha2 => c45CatStep_inv env S pE a a2 b2 ha2) _ st h
    · exact foldl_preserve
        (fun st : BestState => ∀ t, st.bestTest = some t → SplitsPartition S st)
        (c45CatStep env S pE a)
        (fun a2 b2 ha2 => c45CatStep_inv env S pE a a2 b2 ha2) _ st h

/-- The C4.5 scan's final best splits partition the instance list whenever the
scanned attributes' values all coerce to numbers. -/
theorem c45Search_partition (env : Env) (S : List Instance) (pE : ℚ)
    (attrs : List String)
    (hnum : ∀ a ∈ attrs, ∀ i ∈ S, (toNum (lookupVal i a)).isSome = true) :
    ∀ t, (c45Search env S pE attrs).bestTest = some t →
      SplitsPartition S (c45Search env S pE attrs) :=
  foldl_preserve_mem
    (fun st : BestState => ∀ t, st.bestTest = some t → SplitsPartition S st)
    (c45AttrStep env S pE) attrs
    (fun st a ha hst => c45AttrStep_inv env S pE st a (hnum a ha) hst)
    initBest (fun t ht => by simp [initBest] at ht)

/-- `TSP.buildNode` satisfies both built-tree invariants: every node's
children carry the statistics of the `evaluate`-split of its subset, and the
totals sum. -/
theorem buildNodeTSP_invariants :
    ∀ (n : ℕ) (env : Env) (cfg : ExperimentConfig) (insts : List Instance)
      (depth : ℕ) (attrs : List String) (k : ℕ), cfg.maxDepth - depth ≤ n →
      totalsOk (buildNodeTSP env cfg insts depth attrs k).1 = true ∧
      evalSplitOk env (buildNodeTSP env cfg insts depth attrs k).1 insts
        = true := by
  intro n
  induction n with
  | zero =>
    intro env cfg insts depth attrs k hn
    rw [buildNodeTSP, dif_pos (Or.inl (by omega))]
    exact ⟨totalsOk_createLeaf env k insts,
      evalSplitOk_createLeaf env k insts insts⟩
  | succ m ih =>
    intro env cfg insts depth attrs k hn
    by_cases hstop : cfg.maxDepth ≤ depth ∨
        insts.length ≤ cfg.minInstancesPerLeaf ∨
        (calculateStats env insts).entropy ≤ cfg.entropyThreshold ∨
        attrs.length < 2
    · rw [buildNodeTSP, dif_pos hstop]
      exact ⟨totalsOk_createLeaf env k insts,
        evalSplitOk_createLeaf env k insts insts⟩
    · rw [buildNodeTSP, dif_neg hstop]
      push_neg at hstop
      obtain ⟨hd1, hd2, hd3, hd4⟩ := hstop
      rcases hbt : (tspSearch env insts (calculateStats env insts).entropy
          attrs).bestTest with _ | bt
      · exact ⟨totalsOk_createLeaf env k insts,
          evalSplitOk_createLeaf env k insts insts⟩
      · have hsplits := tspSearch_bestSplits env insts
          (calculateStats env insts).entropy attrs bt hbt
        simp only
        by_cases hg : (tspSearch env insts (calculateStats env insts).entropy
            attrs).bestGain ≤ 0
        · rw [if_pos hg]
          exact ⟨totalsOk_createLeaf env k insts,
            evalSplitOk_createLeaf env k insts insts⟩
        · rw [if_neg hg]
          have hIH1 := ih env cfg
            ((tspSearch env insts (calculateStats env insts).entropy
              attrs).bestSplits.1)
            (depth + 1) (attrs.filter (keepAttr bt)) (k + 1) (by omega)
          have hIH2 := ih env cfg
            ((tspSearch env insts (calculateStats env insts).entropy
              attrs).bestSplits.2)
            (depth + 1) (attrs.filter (keepAttr bt))
            ((buildNodeTSP env cfg
              ((tspSearch env insts (calculateStats env insts).entropy
                attrs).bestSplits.1)
              (depth + 1) (attrs.filter (keepAttr bt)) (k + 1)).2) (by omega)
          rw [totalsOk_node, evalSplitOk_node]
          simp only [Option.getD]
          simp only [hsplits] at hIH1 hIH2 ⊢
          simp only [Bool.and_eq_true, decide_eq_true_eq]
          refine ⟨⟨⟨?_, hIH1.1⟩, hIH2.1⟩,
            ⟨⟨⟨?_, ?_⟩, hIH1.2⟩, hIH2.2⟩⟩
          · rw [buildNodeTSP_statistics, buildNodeTSP_statistics]
            simp only [calculateStats_total]
            exact (splitInstances_length insts bt).symm
          · exact buildNodeTSP_statistics env cfg _ _ _ _
          · exact buildNodeTSP_statistics env cfg _ _ _ _

/-- `WTSP.buildNode` satisfies both built-tree invariants. -/
theorem buildNodeWTSP_invariants :
    ∀ (n : ℕ) (env : Env) (cfg : ExperimentConfig) (insts : List Instance)
      (depth : ℕ) (attrs : List String) (k : ℕ), cfg.maxDepth - depth ≤ n →
      totalsOk (buildNodeWTSP env cfg insts depth attrs k).1 = true ∧
      evalSplitOk env (buildNodeWTSP env cfg insts depth attrs k).1 insts
        = true := by
  intro n
  induction n with
  | zero =>
    intro env cfg insts depth attrs k hn
    rw [buildNodeWTSP, dif_pos (Or.inl (by omega))]
    exact ⟨totalsOk_createLeaf env k insts,
      evalSplitOk_createLeaf env k insts insts⟩
  | succ m ih =>
    intro env cfg insts depth attrs k hn
    by_cases hstop : cfg.maxDepth ≤ depth ∨
        insts.length ≤ cfg.minInstancesPerLeaf ∨
        (calculateStats env insts).entropy ≤ cfg.entropyThreshold ∨
        attrs.length < 2
    · rw [buildNodeWTSP, dif_pos hstop]
      exact ⟨totalsOk_createLeaf env k insts,
        evalSplitOk_createLeaf env k insts insts⟩
    · rw [buildNodeWTSP, dif_neg hstop]
      push_neg at hstop
      obtain ⟨hd1, hd2, hd3, hd4⟩ := hstop
      rcases hbt : (wtspSearch env insts (calculateStats env insts).entropy
          attrs).bestTest with _ | bt
      · exact ⟨totalsOk_createLeaf env k insts,
          evalSplitOk_createLeaf env k insts insts⟩
      · have hsplits := wtspSearch_bestSplits env insts
          (calculateStats env insts).entropy attrs bt hbt
        simp only
        by_cases hg : (wtspSearch env insts (calculateStats env insts).entropy
            attrs).bestGain ≤ 0
        · rw [if_pos hg]
          exact ⟨totalsOk_createLeaf env k insts,
            evalSplitOk_createLeaf env k insts insts⟩
        · rw [if_neg hg]
          have hIH1 := ih env cfg
            ((wtspSearch env insts (calculateStats env insts).entropy
              attrs).bestSplits.1)
            (depth + 1) (attrs.filter (keepAttr bt)) (k + 1) (by omega)
          have hIH2 := ih env cfg
            ((wtspSearch env insts (calculateStats env insts).entropy
              attrs).bestSplits.2)
            (depth + 1) (attrs.filter (keepAttr bt))
            ((buildNodeWTSP env cfg
              ((wtspSearch env insts (calculateStats env insts).entropy
                attrs).bestSplits.1)
              (depth + 1) (attrs.filter (keepAttr bt)) (k + 1)).2) (by omega)
          rw [totalsOk_node, evalSplitOk_node]
          simp only [Option.getD]
          simp only [hsplits] at hIH1 hIH2 ⊢
          simp only [Bool.and_eq_true, decide_eq_true_eq]
          refine ⟨⟨⟨?_, hIH1.1⟩, hIH2.1⟩,
            ⟨⟨⟨?_, ?_⟩, hIH1.2⟩, hIH2.2⟩⟩
          · rw [buildNodeWTSP_statistics, buildNodeWTSP_statistics]
            simp only [calculateStats_total]
            exact (splitInstances_length insts bt).symm
          · exact buildNodeWTSP_statistics env cfg _ _ _ _
          · exact buildNodeWTSP_statistics env cfg _ _ _ _

/-- `C45.buildNode` satisfies the totals invariant whenever all scanned
attribute values coerce to numbers (so that the numeric-threshold groups
cannot silently drop `NaN` instances). -/
theorem buildNodeC45_totals :
    ∀ (n : ℕ) (env : Env) (cfg : ExperimentConfig) (insts : List Instance)
      (depth : ℕ) (attrs : List String) (k : ℕ), cfg.maxDepth - depth ≤ n →
      (∀ a ∈ attrs, ∀ i ∈ insts, (toNum (lookupVal i a)).isSome = true) →
      totalsOk (buildNodeC45 env cfg insts depth attrs k).1 = true := by
  intro n
  induction n with
  | zero =>
    intro env cfg insts depth attrs k hn hnum
    rw [buildNodeC45, dif_pos (Or.inl (by omega))]
    exact totalsOk_createLeaf env k insts
  | succ m ih =>
    intro env cfg insts depth attrs k hn hnum
    by_cases hstop : cfg.maxDepth ≤ depth ∨
        insts.length ≤ cfg.minInstancesPerLeaf ∨
        (calculateStats env insts).entropy ≤ cfg.entropyThreshold ∨
        attrs.length = 0 ∨
        (calculateStats env insts).classDistribution.length ≤ 1
    · rw [buildNodeC45, dif_pos hstop]
      exact totalsOk_createLeaf env k insts
    · rw [buildNodeC45, dif_neg hstop]
      push_neg at hstop
      obtain ⟨hd1, hd2, hd3, hd4, hd5⟩ := hstop
      rcases hbt : (c45Search env insts (calculateStats env insts).entropy
          attrs).bestTest with _ | bt
      · exact totalsOk_createLeaf env k insts
      · obtain ⟨hlen, hm1, hm2⟩ := c45Search_partition env insts
          (calculateStats env insts).entropy attrs hnum bt hbt
        simp only
        by_cases hg : (c45Search env insts (calculateStats env insts).entropy
            attrs).bestGain ≤ 0
        · rw [if_pos hg]
          exact totalsOk_createLeaf env k insts
        · rw [if_neg hg]
          have hnum1 : ∀ a ∈ attrs.filter (fun a => a ≠ bt.attr),
              ∀ i ∈ (c45Search env insts (calculateStats env insts).entropy
                attrs).bestSplits.1,
              (toNum (lookupVal i a)).isSome = true :=
            fun a ha i hi => hnum a (List.mem_of_mem_filter ha) i (hm1 i hi)
          have hnum2 : ∀ a ∈ attrs.filter (fun a => a ≠ bt.attr),
              ∀ i ∈ (c45Search env insts (calculateStats env insts).entropy
                attrs).bestSplits.2,
              (toNum (lookupVal i a)).isSome = true :=
            fun a ha i hi => hnum a (List.mem_of_mem_filter ha) i (hm2 i hi)
          have hIH1 := ih env cfg
            ((c45Search env insts (calculateStats env insts).entropy
              attrs).bestSplits.1)
            (depth + 1) (attrs.filter (fun a => a ≠ bt.attr)) (k + 1)
            (by omega) hnum1
          have hIH2 := ih env cfg
            ((c45Search env insts (calculateStats env insts).entropy
              attrs).bestSplits.2)
            (depth + 1) (attrs.filter (fun a => a ≠ bt.attr))
            ((buildNodeC45 env cfg
              ((c45Search env insts (calculateStats env insts).entropy
                attrs).bestSplits.1)
              (depth + 1) (attrs.filter (fun a => a ≠ bt.attr)) (k + 1)).2)
            (by omega) hnum2
          rw [totalsOk_node]
          simp only [Bool.and_eq_true, decide_eq_true_eq]
          refine ⟨⟨?_, hIH1⟩, hIH2⟩
          rw [buildNodeC45_statistics, buildNodeC45_statistics]
          simp only [calculateStats_total]
          exact hlen.symm

/-- C4 counterexample: over instances with attribute strings `"01"` and `"1"`
(distinct as values, equal as numbers), the C4.5 build picks the categorical
test `A == "01"` whose strict-equality group `[ceI1]` differs from the set on
which `evaluate` returns true (numeric coercion makes it true of both
instances) — so `children[0]` does not carry the statistics of the
`evaluate`-true subset. -/
theorem c45_children_not_evaluate_split :
    evalSplitOk qEnv (buildTreeC45 qEnv [ceI1, ceI2] cfgA 0).1.root
      [ceI1, ceI2] = false := by
  have hE2 : (calculateStats qEnv [ceI1, ceI2]).entropy = 1 := rfl
  have hEx : (calculateStats qEnv [ceI1]).entropy = 0 := rfl
  have hEy : (calculateStats qEnv [ceI2]).entropy = 0 := rfl
  have hD2 : (calculateStats qEnv [ceI1, ceI2]).classDistribution
      = [("x", 1), ("y", 1)] := rfl
  have hf01 : [ceI1, ceI2].filter
      (fun i => lookupVal i "A" = JSVal.str "01") = [ceI1] := by decide
  have hf01n : [ceI1, ceI2].filter
      (fun i => lookupVal i "A" ≠ JSVal.str "01") = [ceI2] := by decide
  have hf1 : [ceI1, ceI2].filter
      (fun i => lookupVal i "A" = JSVal.str "1") = [ceI2] := by decide
  have hf1n : [ceI1, ceI2].filter
      (fun i => lookupVal i "A" ≠ JSVal.str "1") = [ceI1] := by decide
  have hg1 : informationGain qEnv [ceI1, ceI2] ([ceI1], [ceI2]) = 1 := by
    simp only [informationGain]
    norm_num [hE2, hEx, hEy]
  have hg2 : informationGain qEnv [ceI1, ceI2] ([ceI2], [ceI1]) = 1 := by
    simp only [informationGain]
    norm_num [hE2, hEx, hEy]
  have hiv : qEnv.iv ([ceI1].length) ([ceI2].length) ([ceI1, ceI2].length)
      = 1 := rfl
  have hiv2 : qEnv.iv ([ceI2].length) ([ceI1].length) ([ceI1, ceI2].length)
      = 1 := rfl
  have hstep1 : c45CatStep qEnv [ceI1, ceI2] 1 "A" initBest (.str "01") =
      ⟨some ceT01, 1, ([ceI1], [ceI2]), []⟩ := by
    simp only [c45CatStep]
    rw [hf01, hf01n, hg1, hiv]
    norm_num [initBest, BestState.mk.injEq, ceT01]
  have hstep2 : c45CatStep qEnv [ceI1, ceI2] 1 "A"
      ⟨some ceT01, 1, ([ceI1], [ceI2]), []⟩ (.str "1") =
      ⟨some ceT01, 1, ([ceI1], [ceI2]), [ceT1]⟩ := by
    simp only [c45CatStep]
    rw [hf1, hf1n, hg2, hiv2]
    norm_num [BestState.mk.injEq, SplitTest.mk.injEq, ceT1]
  have hsearch : c45Search qEnv [ceI1, ceI2] 1 ["A"] =
      ⟨some ceT01, 1, ([ceI1], [ceI2]), [ceT1]⟩ := by
    have h0 : c45Search qEnv [ceI1, ceI2] 1 ["A"] =
        c45CatStep qEnv [ceI1, ceI2] 1 "A"
          (c45CatStep qEnv [ceI1, ceI2] 1 "A" initBest (.str "01"))
          (.str "1") := rfl
    rw [h0, hstep1, hstep2]
  have hleaf1 : buildNodeC45 qEnv cfgA [ceI1] (0 + 1) [] (0 + 1)
      = (ceL1, 2) := by
    rw [buildNodeC45, dif_pos ?_]
    · rfl
    · right; left
      norm_num [cfgA]
  have hleaf2 : buildNodeC45 qEnv cfgA [ceI2] (0 + 1) [] ((ceL1, 2).2)
      = (ceL2, 3) := by
    rw [buildNodeC45, dif_pos ?_]
    · rfl
    · right; left
      norm_num [cfgA]
  have hrem : ["A"].filter (fun a => a ≠ ceT01.attr) = [] := by decide
  have hnode : buildNodeC45 qEnv cfgA [ceI1, ceI2] 0 ["A"] 0
      = (ceRoot, 3) := by
    rw [buildNodeC45, dif_neg (by norm_num [cfgA, hE2, hD2])]
    rw [hE2, hsearch]
    simp only
    rw [if_neg (by norm_num)]
    rw [hrem, hleaf1, hleaf2]
    rfl
  have hattrs : (firstKeys [ceI1, ceI2]).filter (fun a =>
      a ∉ cfgA.excludedAttributes ∧ a ≠ cfgA.decisionAttribute)
      = ["A"] := by decide
  have htree : (buildTreeC45 qEnv [ceI1, ceI2] cfgA 0).1.root = ceRoot := by
    simp only [buildTreeC45]
    rw [hattrs, hnode]
  rw [htree]
  decide

/-- C4 (amended): every TSP and WTSP build satisfies the full invariant —
each internal node's `children[0]` carries the statistics of exactly the
instances on which its test evaluates true (`children[1]` of the rest), and
`totalInstances` sums over the children. A C4.5 build satisfies the totals
half whenever the values of the scanned attributes all coerce to numbers; its
`evaluate`-partition half fails in general (see the counterexample). -/
theorem built_tree_invariants (env : Env) (insts : List Instance)
    (cfg : ExperimentConfig) (k : ℕ) :
    ((∀ a ∈ (firstKeys insts).filter (fun a =>
        a ∉ cfg.excludedAttributes ∧ a ≠ cfg.decisionAttribute),
        ∀ i ∈ insts, (toNum (lookupVal i a)).isSome = true) →
      totalsOk (buildTreeC45 env insts cfg k).1.root = true) ∧
    (∀ t k2, buildTreeTSP env insts cfg k = .ok (t, k2) →
      totalsOk t.root = true ∧ evalSplitOk env t.root insts = true) ∧
    (∀ t k2, buildTreeWTSP env insts cfg k = .ok (t, k2) →
      totalsOk t.root = true ∧ evalSplitOk env t.root insts = true) := by
  refine ⟨?_, ?_, ?_⟩
  · intro hnum
    exact buildNodeC45_totals cfg.maxDepth env cfg insts 0 _ k
      (by omega) hnum
  · intro t k2 ht
    simp only [buildTreeTSP] at ht
    split_ifs at ht with hlen
    simp only [Except.ok.injEq, Prod.mk.injEq] at ht
    obtain ⟨ht1, _⟩ := ht
    subst ht1
    exact buildNodeTSP_invariants cfg.maxDepth env cfg insts 0
      (numericAttrs insts cfg) k (by omega)
  · intro t k2 ht
    simp only [buildTreeWTSP] at ht
    split_ifs at ht with hlen
    simp only [Except.ok.injEq, Prod.mk.injEq] at ht
    obtain ⟨ht1, _⟩ := ht
    subst ht1
    exact buildNodeWTSP_invariants cfg.maxDepth env cfg insts 0
      (numericAttrs insts cfg) k (by omega)

/-- C4 witness: the amended invariants instantiated on the concrete
two-instance numeric dataset, with every hypothesis discharged. -/
theorem built_tree_invariants_witness :
    totalsOk (buildTreeC45 qEnv [nIx, nIy] cfgA 0).1.root = true ∧
    (∃ t k2, buildTreeTSP qEnv [nIx, nIy] cfgA 0 = .ok (t, k2) ∧
      totalsOk t.root = true ∧ evalSplitOk qEnv t.root [nIx, nIy] = true) ∧
    (∃ t k2, buildTreeWTSP qEnv [nIx, nIy] cfgA 0 = .ok (t, k2) ∧
      totalsOk t.root = true ∧ evalSplitOk qEnv t.root [nIx, nIy] = true) := by
  obtain ⟨h1, h2, h3⟩ := built_tree_invariants qEnv [nIx, nIy] cfgA 0
  have htsp : ∃ t k2, buildTreeTSP qEnv [nIx, nIy] cfgA 0 = .ok (t, k2) :=
    ⟨_, _, rfl⟩
  obtain ⟨t, k2, ht⟩ := htsp
  have hwtsp : ∃ t k2, buildTreeWTSP qEnv [nIx, nIy] cfgA 0 = .ok (t, k2) :=
    ⟨_, _, rfl⟩
  obtain ⟨t2, k3, hw⟩ := hwtsp
  exact ⟨h1 (by decide), ⟨t, k2, ht, h2 t k2 ht⟩, ⟨t2, k3, hw, h3 t2 k3 hw⟩⟩


/-! ## C9: determinism across runs (only the id stream varies) -/

/-- `calculateStats` only consults the entropy function of the environment. -/
theorem calculateStats_congr {env1 env2 : Env} (h : env1.H = env2.H) :
    calculateStats env1 = calculateStats env2 := by
  funext S
  simp only [calculateStats, h]

/-- `informationGain` only consults the entropy function. -/
theorem informationGain_congr {env1 env2 : Env} (h : env1.H = env2.H) :
    informationGain env1 = informationGain env2 := by
  funext parent s
  simp only [informationGain, calculateStats_congr h]

/-- `tspStep` only consults the entropy function. -/
theorem tspStep_congr {env1 env2 : Env} (h : env1.H = env2.H) :
    tspStep env1 = tspStep env2 := by
  funext S pE st t
  simp only [tspStep, calculateStats_congr h]

/-- `tspSearch` only consults the entropy function. -/
theorem tspSearch_congr {env1 env2 : Env} (h : env1.H = env2.H) :
    tspSearch env1 = tspSearch env2 := by
  funext S pE attrs
  simp only [tspSearch, tspStep_congr h]

/-- `wtspSearch` only consults the entropy function. -/
theorem wtspSearch_congr {env1 env2 : Env} (h : env1.H = env2.H) :
    wtspSearch env1 = wtspSearch env2 := by
  funext S pE attrs
  simp only [wtspSearch, tspStep_congr h]

/-- `c45NumStep` only consults the entropy and intrinsic-value functions. -/
theorem c45NumStep_congr {env1 env2 : Env} (hH : env1.H = env2.H)
    (hiv : env1.iv = env2.iv) : c45NumStep env1 = c45NumStep env2 := by
  funext S pE a st thr
  simp only [c45NumStep, informationGain_congr hH, hiv]

/-- `c45CatStep` only consults the entropy and intrinsic-value functions. -/
theorem c45CatStep_congr {env1 env2 : Env} (hH : env1.H = env2.H)
    (hiv : env1.iv = env2.iv) : c45CatStep env1 = c45CatStep env2 := by
  funext S pE a st v
  simp only [c45CatStep, informationGain_congr hH, hiv]

/-- `c45AttrStep` only consults the entropy and intrinsic-value functions. -/
theorem c45AttrStep_congr {env1 env2 : Env} (hH : env1.H = env2.H)
    (hiv : env1.iv = env2.iv) : c45AttrStep env1 = c45AttrStep env2 := by
  funext S pE st a
  simp only [c45AttrStep, c45NumStep_congr hH hiv, c45CatStep_congr hH hiv]

/-- `c45Search` only consults the entropy and intrinsic-value functions. -/
theorem c45Search_congr {env1 env2 : Env} (hH : env1.H = env2.H)
    (hiv : env1.iv = env2.iv) : c45Search env1 = c45Search env2 := by
  funext S pE attrs
  simp only [c45Search, c45AttrStep_congr hH hiv]

/-- `eraseIds` unfolded at an element with children. -/
theorem eraseIds_node (i : String) (ty : ElTag) (st : NodeStatistics)
    (te : Option SplitTest) (l r : Element) (alts : List SplitTest)
    (pc : Option String) (cd : Option ClassDist) (ce : Option Bool) :
    eraseIds (.mk i ty st te (some (l, r)) alts pc cd ce) =
      .mk "" ty st te (some (eraseIds l, eraseIds r)) alts pc cd ce := rfl

/-- `eraseIds` unfolded at an element without children. -/
theorem eraseIds_noChildren (i : String) (ty : ElTag) (st : NodeStatistics)
    (te : Option SplitTest) (alts : List SplitTest) (pc : Option String)
    (cd : Option ClassDist) (ce : Option Bool) :
    eraseIds (.mk i ty st te none alts pc cd ce) =
      .mk "" ty st te none alts pc cd ce := rfl

/-- Two fresh leaves over the same subset agree after id erasure. -/
theorem eraseIds_createLeaf {env1 env2 : Env} (h : env1.H = env2.H)
    (k1 k2 : ℕ) (insts : List Instance) :
    eraseIds (createLeafFromGroup env1 k1 insts).1 =
      eraseIds (createLeafFromGroup env2 k2 insts).1 := by
  simp only [createLeafFromGroup]
  rw [eraseIds_noChildren, eraseIds_noChildren, calculateStats_congr h]

/-- Two TSP builds over the same data differ only in ids. -/
theorem buildNodeTSP_deterministic :
    ∀ (n : ℕ) (env1 env2 : Env), env1.H = env2.H →
    ∀ (cfg : ExperimentConfig) (insts : List Instance) (depth : ℕ)
      (attrs : List String) (k1 k2 : ℕ), cfg.maxDepth - depth ≤ n →
      eraseIds (buildNodeTSP env1 cfg insts depth attrs k1).1 =
      eraseIds (buildNodeTSP env2 cfg insts depth attrs k2).1 := by
  intro n
  induction n with
  | zero =>
    intro env1 env2 hH cfg insts depth attrs k1 k2 hn
    rw [buildNodeTSP, buildNodeTSP,
      dif_pos (Or.inl (by omega)), dif_pos (Or.inl (by omega))]
    exact eraseIds_createLeaf hH k1 k2 insts
  | succ m ih =>
    intro env1 env2 hH cfg insts depth attrs k1 k2 hn
    rw [buildNodeTSP, buildNodeTSP]
    rw [← calculateStats_congr hH, ← tspSearch_congr hH]
    by_cases hstop : cfg.maxDepth ≤ depth ∨
        insts.length ≤ cfg.minInstancesPerLeaf ∨
        (calculateStats env1 insts).entropy ≤ cfg.entropyThreshold ∨
        attrs.length < 2
    · rw [dif_pos hstop, dif_pos hstop]
      exact eraseIds_createLeaf hH k1 k2 insts
    · rw [dif_neg hstop, dif_neg hstop]
      push_neg at hstop
      obtain ⟨hd1, _, _, _⟩ := hstop
      rcases hbt : (tspSearch env1 insts (calculateStats env1 insts).entropy
          attrs).bestTest with _ | bt
      · exact eraseIds_createLeaf hH k1 k2 insts
      · simp only
        by_cases hg : (tspSearch env1 insts
            (calculateStats env1 insts).entropy attrs).bestGain ≤ 0
        · rw [if_pos hg, if_pos hg]
          exact eraseIds_createLeaf hH k1 k2 insts
        · rw [if_neg hg, if_neg hg]
          rw [eraseIds_node, eraseIds_node]
          simp only [Element.mk.injEq, Option.some.injEq, Prod.mk.injEq,
            true_and, and_true]
          exact ⟨ih env1 env2 hH cfg _ (depth + 1) _ _ _ (by omega),
            ih env1 env2 hH cfg _ (depth + 1) _ _ _ (by omega)⟩

/-- Two WTSP builds over the same data differ only in ids. -/
theorem buildNodeWTSP_deterministic :
    ∀ (n : ℕ) (env1 env2 : Env), env1.H = env2.H →
    ∀ (cfg : ExperimentConfig) (insts : List Instance) (depth : ℕ)
      (attrs : List String) (k1 k2 : ℕ), cfg.maxDepth - depth ≤ n →
      eraseIds (buildNodeWTSP env1 cfg insts depth attrs k1).1 =
      eraseIds (buildNodeWTSP env2 cfg insts depth attrs k2).1 := by
  intro n
  induction n with
  | zero =>
    intro env1 env2 hH cfg insts depth attrs k1 k2 hn
    rw [buildNodeWTSP, buildNodeWTSP,
      dif_pos (Or.inl (by omega)), dif_pos (Or.inl (by omega))]
    exact eraseIds_createLeaf hH k1 k2 insts
  | succ m ih =>
    intro env1 env2 hH cfg insts depth attrs k1 k2 hn
    rw [buildNodeWTSP, buildNodeWTSP]
    rw [← calculateStats_congr hH, ← wtspSearch_congr hH]
    by_cases hstop : cfg.maxDepth ≤ depth ∨
        insts.length ≤ cfg.minInstancesPerLeaf ∨
        (calculateStats env1 insts).entropy ≤ cfg.entropyThreshold ∨
        attrs.length < 2
    · rw [dif_pos hstop, dif_pos hstop]
      exact eraseIds_createLeaf hH k1 k2 insts
    · rw [dif_neg hstop, dif_neg hstop]
      push_neg at hstop
      obtain ⟨hd1, _, _, _⟩ := hstop
      rcases hbt : (wtspSearch env1 insts (calculateStats env1 insts).entropy
          attrs).bestTest with _ | bt
      · exact eraseIds_createLeaf hH k1 k2 insts
      · simp only
        by_cases hg : (wtspSearch env1 insts
            (calculateStats env1 insts).entropy attrs).bestGain ≤ 0
        · rw [if_pos hg, if_pos hg]
          exact eraseIds_createLeaf hH k1 k2 insts
        · rw [if_neg hg, if_neg hg]
          rw [eraseIds_node, eraseIds_node]
          simp only [Element.mk.injEq, Option.some.injEq, Prod.mk.injEq,
            true_and, and_true]
          exact ⟨ih env1 env2 hH cfg _ (depth + 1) _ _ _ (by omega),
            ih env1 env2 hH cfg _ (depth + 1) _ _ _ (by omega)⟩

/-- Two C4.5 builds over the same data differ only in ids. -/
theorem buildNodeC45_deterministic :
    ∀ (n : ℕ) (env1 env2 : Env), env1.H = env2.H → env1.iv = env2.iv →
    ∀ (cfg : ExperimentConfig) (insts : List Instance) (depth : ℕ)
      (attrs : List String) (k1 k2 : ℕ), cfg.maxDepth - depth ≤ n →
      eraseIds (buildNodeC45 env1 cfg insts depth attrs k1).1 =
      eraseIds (buildNodeC45 env2 cfg insts depth attrs k2).1 := by
  intro n
  induction n with
  | zero =>
    intro env1 env2 hH hiv cfg insts depth attrs k1 k2 hn
    rw [buildNodeC45, buildNodeC45,
      dif_pos (Or.inl (by omega)), dif_pos (Or.inl (by omega))]
    exact eraseIds_createLeaf hH k1 k2 insts
  | succ m ih =>
    intro env1 env2 hH hiv cfg insts depth attrs k1 k2 hn
    rw [buildNodeC45, buildNodeC45]
    rw [← calculateStats_congr hH, ← c45Search_congr hH hiv]
    by_cases hstop : cfg.maxDepth ≤ depth ∨
        insts.length ≤ cfg.minInstancesPerLeaf ∨
        (calculateStats env1 insts).entropy ≤ cfg.entropyThreshold ∨
        attrs.length = 0 ∨
        (calculateStats env1 insts).classDistribution.length ≤ 1
    · rw [dif_pos hstop, dif_pos hstop]
      exact eraseIds_createLeaf hH k1 k2 insts
    · rw [dif_neg hstop, dif_neg hstop]
      push_neg at hstop
      obtain ⟨hd1, _, _, _, _⟩ := hstop
      rcases hbt : (c45Search env1 insts (calculateStats env1 insts).entropy
          attrs).bestTest with _ | bt
      · exact eraseIds_createLeaf hH k1 k2 insts
      · simp only
        by_cases hg : (c45Search env1 insts
            (calculateStats env1 insts).entropy attrs).bestGain ≤ 0
        · rw [if_pos hg, if_pos hg]
          exact eraseIds_createLeaf hH k1 k2 insts
        · rw [if_neg hg, if_neg hg]
          rw [eraseIds_node, eraseIds_node]
          simp only [Element.mk.injEq, Option.some.injEq, Prod.mk.injEq,
            true_and, and_true]
          exact ⟨ih env1 env2 hH hiv cfg _ (depth + 1) _ _ _ (by omega),
            ih env1 env2 hH hiv cfg _ (depth + 1) _ _ _ (by omega)⟩

/-- C9: two runs of the same induction algorithm over identical instances and
config — modelled as two environments sharing the entropy and intrinsic-value
functions but drawing different random id streams — produce the same outcome
up to ids: the same error, or trees with identical structure, statistics,
tests and leaf summaries (and the same config) once every element id is
erased. -/
theorem builds_deterministic (env1 env2 : Env) (hH : env1.H = env2.H)
    (hiv : env1.iv = env2.iv) (insts : List Instance)
    (cfg : ExperimentConfig) (k1 k2 : ℕ) (tag : AlgTag) :
    (runAlgorithm env1 tag insts cfg k1).map
      (fun r => (eraseIds r.1.root, r.1.config)) =
    (runAlgorithm env2 tag insts cfg k2).map
      (fun r => (eraseIds r.1.root, r.1.config)) := by
  cases tag with
  | c45 =>
    simp only [runAlgorithm, buildTreeC45, Except.map, Except.ok.injEq,
      Prod.mk.injEq, and_true]
    exact buildNodeC45_deterministic cfg.maxDepth env1 env2 hH hiv cfg insts
      0 _ k1 k2 (by omega)
  | tsp =>
    simp only [runAlgorithm, buildTreeTSP]
    split_ifs with hlen
    · rfl
    · simp only [Except.map, Except.ok.injEq, Prod.mk.injEq, and_true]
      exact buildNodeTSP_deterministic cfg.maxDepth env1 env2 hH cfg insts
        0 _ k1 k2 (by omega)
  | wtsp =>
    simp only [runAlgorithm, buildTreeWTSP]
    split_ifs with hlen
    · rfl
    · simp only [Except.map, Except.ok.injEq, Prod.mk.injEq, and_true]
      exact buildNodeWTSP_deterministic cfg.maxDepth env1 env2 hH cfg insts
        0 _ k1 k2 (by omega)

/-- C9 witness: the determinism statement at two concrete environments with
distinct id streams, each hypothesis discharged by `rfl`. -/
theorem builds_deterministic_witness :
    (runAlgorithm qEnv .tsp [nIx, nIy] cfgA 0).map
      (fun r => (eraseIds r.1.root, r.1.config)) =
    (runAlgorithm qEnvZ .tsp [nIx, nIy] cfgA 5).map
      (fun r => (eraseIds r.1.root, r.1.config)) :=
  builds_deterministic qEnv qEnvZ rfl rfl [nIx, nIy] cfgA 0 5 .tsp

end DTree
